import Mathlib

/-!
Shallow embedding of the red-light/green-light session engine
(`src/server.js`, final iteration, lines 443-940), together with proofs
of the specification claims about it.

Modelling conventions:
* the JS `Map` of players is a `List Player` in insertion order
  (`Map.set` on an existing key keeps the original position);
* machine timestamps (`Date.now()`) are explicit `now : Nat` arguments;
* timers are modelled by a nondeterministic step relation: each timer
  callback is an action that may fire at any time and re-validates the
  session's phase/light itself, exactly as the source callbacks do;
* socket emissions are collected in a `List Event` result.
-/

namespace RLGL

inductive Phase where
  | lobby
  | countdown
  | playing
  | gameOver
deriving DecidableEq, Repr

inductive Light where
  | red
  | green
deriving DecidableEq, Repr

structure Player where
  id : Nat
  name : String
  progress : ℚ
  alive : Bool
  holding : Bool
  eliminated : Bool
  finishedAt : Option Nat
  eliminatedInRound : Option Nat
deriving DecidableEq, Repr

structure LogEntry where
  id : Nat
  name : String
  round : Nat
deriving DecidableEq, Repr

structure Game where
  phase : Phase
  light : Light
  players : List Player
  round : Nat
  progressToWin : ℚ
  eliminationPending : Bool
  eliminationOrder : List LogEntry
  finishOrder : List LogEntry
  usedNames : List String
  tournamentActive : Bool
deriving DecidableEq, Repr

structure DurRange where
  lo : Nat
  hi : Nat
deriving DecidableEq, Repr

structure Difficulty where
  gracePeriodMs : Nat
  greenDuration : DurRange
  redDuration : DurRange
  progressRate : ℚ
deriving DecidableEq, Repr

def DIFFICULTY : List Difficulty :=
  [⟨1000, ⟨3000, 5500⟩, ⟨2000, 3500⟩, 1.2⟩,
   ⟨850, ⟨2500, 5000⟩, ⟨1800, 3200⟩, 1.1⟩,
   ⟨700, ⟨2000, 4000⟩, ⟨1500, 3000⟩, 1⟩,
   ⟨600, ⟨1500, 3500⟩, ⟨1500, 2800⟩, 0.9⟩,
   ⟨500, ⟨1000, 2500⟩, ⟨1200, 2500⟩, 0.8⟩]

/-- `getDifficulty(round)`: index `min(max(round-1,0), len-1)`; the clamp keeps
the index in range, so the `getD` default (the last table row) is never used. -/
def getDifficulty (round : Nat) : Difficulty :=
  DIFFICULTY.getD (min (round - 1) (DIFFICULTY.length - 1))
    ⟨500, ⟨1000, 2500⟩, ⟨1200, 2500⟩, 0.8⟩

/-- `getCurrentDifficulty()`: `getDifficulty(game.round || 1)`. -/
def getCurrentDifficulty (g : Game) : Difficulty :=
  getDifficulty (if g.round = 0 then 1 else g.round)

/-- JS `String.prototype.trim()`: strip whitespace from both ends
(structurally recursive so the kernel can evaluate it). -/
def jsTrim (s : String) : String :=
  ⟨((s.data.dropWhile Char.isWhitespace).reverse.dropWhile Char.isWhitespace).reverse⟩

/-- JS `String.prototype.substring(0, n)`. -/
def jsTake (s : String) (n : Nat) : String :=
  ⟨s.data.take n⟩

/-- JS `String.prototype.toLowerCase()`. -/
def jsToLower (s : String) : String :=
  ⟨s.data.map Char.toLower⟩

def createPlayer (id : Nat) (name : String) : Player :=
  ⟨id, jsTake name 15, 0, true, false, false, none, none⟩

def alivePlayers (g : Game) : List Player :=
  g.players.filter fun p => p.alive

def aliveUnfinished (g : Game) : List Player :=
  g.players.filter fun p => p.alive && p.finishedAt.isNone

structure LBEntry where
  name : String
  id : Nat
  position : Nat
  status : String
  round : Option Nat
deriving DecidableEq, Repr

/-- `getLeaderboard()`: finishers in finish order, then alive unfinished
players by descending progress (stable sort), then the elimination log
reversed; positions are `entries.length + 1` at each push, i.e. the
running index. -/
def getLeaderboard (g : Game) : List LBEntry :=
  let fin := g.finishOrder
  let aliveSorted :=
    (aliveUnfinished g).mergeSort fun a b => decide (b.progress ≤ a.progress)
  let elim := g.eliminationOrder.reverse
  (fin.enum.map fun x => ⟨x.2.name, x.2.id, x.1 + 1, "winner", some x.2.round⟩)
    ++ (aliveSorted.enum.map fun x =>
          ⟨x.2.name, x.2.id, fin.length + x.1 + 1, "alive", none⟩)
    ++ (elim.enum.map fun x =>
          ⟨x.2.name, x.2.id, fin.length + aliveSorted.length + x.1 + 1,
            "eliminated", some x.2.round⟩)

inductive Event where
  | joinError (reason : String)
  | joined (id : Nat) (name : String)
  | playerJoined (id : Nat) (name : String)
  | gameState
  | playerState (id : Nat)
  | eliminations (who : List (Nat × String))
  | eliminatedMsg (id : Nat)
  | roundInfo (round : Nat)
  | countdownTick (n : Nat)
  | gameOverMsg (winner : Option (Nat × String))
  | lobbyResetMsg (id : Nat)
  | kickedMsg (id : Nat)
deriving DecidableEq, Repr

/-- `broadcastAll()`: a `gameState` to the display room plus one
`playerState` per registered player. -/
def broadcastAll (g : Game) : List Event :=
  Event.gameState :: g.players.map fun p => Event.playerState p.id

/-- `endGame(winner)`: no-op when already in `gameOver`, otherwise enter
`gameOver`, force the light red and broadcast the result. -/
def endGame (g : Game) (winner : Option (Nat × String)) : Game × List Event :=
  if g.phase = Phase.gameOver then (g, [])
  else
    let g1 := { g with phase := Phase.gameOver, light := Light.red }
    (g1, Event.gameOverMsg winner :: g1.players.map fun p => Event.playerState p.id)

def setFinished (ps : List Player) (pid : Nat) (now : Nat) : List Player :=
  ps.map fun p => if p.id = pid then { p with finishedAt := some now } else p

/-- The `finishOrder.push(...); winner.finishedAt = Date.now()` pair that the
round-ending paths share. -/
def pushFinish (g : Game) (w : Player) (now : Nat) : Game :=
  { g with finishOrder := g.finishOrder ++ [⟨w.id, w.name, g.round⟩],
           players := setFinished g.players w.id now }

/-- `checkForGameEnd()`. -/
def checkForGameEnd (g : Game) (now : Nat) : Game × List Event :=
  if alivePlayers g = [] then endGame g none
  else
    match g.finishOrder.filter fun f => f.round == g.round with
    | f :: _ =>
        endGame g ((g.players.find? fun p => p.id == f.id).map fun p => (p.id, p.name))
    | [] =>
        match aliveUnfinished g, alivePlayers g with
        | [w], [_] => endGame (pushFinish g w now) (some (w.id, w.name))
        | _, _ => (g, [])

/-- `checkSoftlock()`. -/
def checkSoftlock (g : Game) (now : Nat) : Game × List Event :=
  if g.phase ≠ Phase.playing then (g, [])
  else
    match alivePlayers g with
    | [] => endGame g none
    | [w] =>
        if w.finishedAt = none then endGame (pushFinish g w now) (some (w.id, w.name))
        else endGame g (some (w.id, w.name))
    | _ => (g, [])

/-- `eliminatePlayer(player)`'s effect on the player record. -/
def elimMark (round : Nat) (p : Player) : Player :=
  { p with alive := false, eliminated := true, holding := false,
           eliminatedInRound := some round }

/-- `eliminatePlayer(player)`: mark the record and append to the
elimination log. -/
def eliminatePlayer (g : Game) (pid : Nat) : Game :=
  match g.players.find? fun p => p.id == pid with
  | none => g
  | some p =>
      { g with players := g.players.map fun q => if q.id = pid then elimMark g.round q else q,
               eliminationOrder := g.eliminationOrder ++ [⟨p.id, p.name, g.round⟩] }

/-- The players swept by the bulk pass of `eliminateHolders`. -/
def bulkTargets (g : Game) : List Player :=
  g.players.filter fun p => p.alive && p.holding

/-- The bulk pass of `eliminateHolders`: clear the grace flag and eliminate
every player that is alive and holding, in registry order. -/
def bulkEliminate (g : Game) : Game :=
  { g with eliminationPending := false,
           players := g.players.map fun p =>
             if p.alive && p.holding then elimMark g.round p else p,
           eliminationOrder := g.eliminationOrder
             ++ (bulkTargets g).map fun p => ⟨p.id, p.name, g.round⟩ }

/-- The end-of-round checks at the bottom of `eliminateHolders`. -/
def afterElimCheck (g : Game) (now : Nat) : Game × List Event :=
  match alivePlayers g with
  | [] => endGame g none
  | [a] =>
      if a.finishedAt = none then endGame (pushFinish g a now) (some (a.id, a.name))
      else if aliveUnfinished g = [] then checkForGameEnd g now
      else (g, [])
  | _ =>
      if aliveUnfinished g = [] then checkForGameEnd g now
      else (g, [])

/-- `eliminateHolders()`: the grace-timer callback. -/
def eliminateHolders (g : Game) (now : Nat) : Game × List Event :=
  if g.phase = Phase.playing ∧ g.light = Light.red then
    let g1 := bulkEliminate g
    let victims := bulkTargets g
    let evs :=
      (if victims = [] then []
       else Event.eliminations (victims.map fun p => (p.id, p.name))
            :: victims.map fun p => Event.eliminatedMsg p.id)
      ++ broadcastAll g1
    let r := afterElimCheck g1 now
    (r.1, evs ++ r.2)
  else (g, [])

/-- One player's update in a 100ms progress tick.  The new progress is
`min(progressToWin, progress + rate)`; the finish test
`progress >= progressToWin` after the clamp is equivalent to
`progressToWin ≤ progress + rate`. -/
def tickPlayer (rate win : ℚ) (now : Nat) (p : Player) : Player :=
  if p.alive && p.holding && p.finishedAt.isNone then
    if win ≤ p.progress + rate then
      { p with progress := min win (p.progress + rate), finishedAt := some now }
    else { p with progress := min win (p.progress + rate) }
  else p

/-- The players that cross the win threshold in this tick, in registry
order (the order their `finishOrder` entries are pushed). -/
def tickFinishers (g : Game) (rate : ℚ) : List Player :=
  g.players.filter fun p =>
    p.alive && p.holding && p.finishedAt.isNone
      && decide (g.progressToWin ≤ p.progress + rate)

/-- One firing of the `startProgressTracking` interval. -/
def progressTick (g : Game) (now : Nat) : Game × List Event :=
  if g.phase = Phase.playing ∧ g.light = Light.green then
    let rate := (getCurrentDifficulty g).progressRate
    let fins := tickFinishers g rate
    let g1 := { g with
      players := g.players.map (tickPlayer rate g.progressToWin now),
      finishOrder := g.finishOrder ++ fins.map fun p => ⟨p.id, p.name, g.round⟩ }
    let evs := broadcastAll g1
    if fins = [] then (g1, evs)
    else
      let r := checkForGameEnd g1 now
      (r.1, evs ++ r.2)
  else (g, [])

/-- `switchToGreen()`. -/
def switchToGreen (g : Game) (now : Nat) : Game × List Event :=
  if g.phase ≠ Phase.playing then (g, [])
  else if aliveUnfinished g = [] then checkForGameEnd g now
  else
    let g1 := { g with light := Light.green, eliminationPending := false }
    (g1, broadcastAll g1)

/-- `switchToRed()`. -/
def switchToRed (g : Game) : Game × List Event :=
  if g.phase ≠ Phase.playing then (g, [])
  else
    let g1 := { g with light := Light.red, eliminationPending := true }
    (g1, broadcastAll g1)

/-- `startGame()`: guard on at least one alive player, then enter the
countdown for a new round, resetting the round-local fields of alive
players only. -/
def startGameFn (g : Game) : Game × List Event :=
  if alivePlayers g = [] then (g, [])
  else
    let g1 := { g with
      tournamentActive := true,
      phase := Phase.countdown,
      round := g.round + 1,
      light := Light.red,
      players := g.players.map fun p =>
        if p.alive then { p with progress := 0, holding := false, finishedAt := none }
        else p }
    (g1, Event.roundInfo g1.round :: broadcastAll g1 ++ [Event.countdownTick 3])

/-- The final firing of the countdown interval: enter `playing` and switch
to green.  The interval only exists while the phase is `countdown`
(`resetLobby` clears it on any other transition). -/
def countdownFinish (g : Game) (now : Nat) : Game × List Event :=
  if g.phase = Phase.countdown then
    switchToGreen { g with phase := Phase.playing } now
  else (g, [])

/-- The `joinGame` socket handler. -/
def joinGame (g : Game) (sid : Nat) (name : String) : Game × List Event :=
  if (jsTrim name).length = 0 then (g, [Event.joinError "Please enter a name!"])
  else
    let cleanName := jsTake (jsTrim name) 15
    if g.tournamentActive then
      (g, [Event.joinError "Tournament in progress! Wait for a new game."])
    else if g.phase ≠ Phase.lobby then
      (g, [Event.joinError "Game in progress. Wait for next game!"])
    else
      let nameLower := jsToLower cleanName
      if (g.players.map fun p => jsToLower p.name).contains nameLower then
        (g, [Event.joinError "Name already taken! Pick another."])
      else
        let player := createPlayer sid cleanName
        let g1 := { g with
          players :=
            if g.players.any fun q => q.id == sid then
              g.players.map fun q => if q.id = sid then player else q
            else g.players ++ [player],
          usedNames :=
            if g.usedNames.contains nameLower then g.usedNames
            else g.usedNames ++ [nameLower] }
        (g1, [Event.joined sid player.name, Event.playerJoined sid player.name,
              Event.gameState])

/-- The `holdStart` socket handler. -/
def holdStart (g : Game) (sid : Nat) (now : Nat) : Game × List Event :=
  match g.players.find? fun p => p.id == sid with
  | none => (g, [])
  | some p =>
      if p.alive = false ∨ p.eliminated = true ∨ p.finishedAt ≠ none
          ∨ g.phase ≠ Phase.playing then (g, [])
      else
        let g1 := { g with players := g.players.map fun q =>
          if q.id = sid then { q with holding := true } else q }
        if g1.light = Light.red ∧ g1.eliminationPending = false then
          let g2 := eliminatePlayer g1 sid
          let evs := [Event.eliminations [(p.id, p.name)], Event.eliminatedMsg p.id]
            ++ broadcastAll g2
          let r := checkSoftlock g2 now
          (r.1, evs ++ r.2)
        else (g1, [])

/-- The `holdEnd` socket handler. -/
def holdEnd (g : Game) (sid : Nat) : Game × List Event :=
  match g.players.find? fun p => p.id == sid with
  | none => (g, [])
  | some _ =>
      ({ g with players := g.players.map fun q =>
          if q.id = sid then { q with holding := false } else q }, [])

/-- The `startGame` socket handler: with two or more alive players start the
round; with exactly one, declare a default tournament win. -/
def startGameHandler (g : Game) (now : Nat) : Game × List Event :=
  if g.phase = Phase.lobby ∨ g.phase = Phase.gameOver then
    match alivePlayers g with
    | [] => (g, [])
    | [w] =>
        let g1 := { g with
          finishOrder := g.finishOrder ++ [⟨w.id, w.name, g.round + 1⟩],
          players := setFinished g.players w.id now,
          round := g.round + 1 }
        endGame g1 (some (w.id, w.name))
    | _ => startGameFn g
  else (g, [])

/-- `resetLobby()`: full reset, clearing registry, logs and the tournament
flag. -/
def resetLobbyFn (g : Game) : Game × List Event :=
  let evs := g.players.map fun p => Event.lobbyResetMsg p.id
  ({ g with phase := Phase.lobby, light := Light.red, round := 0,
            eliminationOrder := [], finishOrder := [], usedNames := [],
            tournamentActive := false, players := [] },
   evs ++ [Event.gameState])

/-- The `kickPlayer` socket handler: unconditional delete from the registry. -/
def kickPlayerFn (g : Game) (pid : Nat) : Game × List Event :=
  ({ g with players := g.players.filter fun p => p.id != pid },
   [Event.kickedMsg pid, Event.gameState])

/-- The `disconnect` socket handler: delete in an inactive lobby, otherwise
eliminate when still alive and run the softlock check. -/
def disconnectHandler (g : Game) (sid : Nat) (now : Nat) : Game × List Event :=
  match g.players.find? fun p => p.id == sid with
  | none => (g, [])
  | some p =>
      if g.phase = Phase.lobby ∧ g.tournamentActive = false then
        let g1 := { g with players := g.players.filter fun q => q.id != sid,
                           usedNames := g.usedNames.filter fun n => n != jsToLower p.name }
        (g1, broadcastAll g1)
      else
        let step1 : Game × List Event :=
          if p.alive then
            (eliminatePlayer g sid, [Event.eliminations [(p.id, p.name)]])
          else (g, [])
        let r := checkSoftlock step1.1 now
        (r.1, step1.2 ++ r.2 ++ broadcastAll r.1)

/-- The actions that can mutate the session: the socket handlers and the
timer callbacks. -/
inductive Act where
  | join (sid : Nat) (name : String)
  | holdStartA (sid : Nat) (now : Nat)
  | holdEndA (sid : Nat)
  | startGameA (now : Nat)
  | countdownFinishA (now : Nat)
  | lightGreen (now : Nat)
  | lightRed
  | graceFire (now : Nat)
  | tick (now : Nat)
  | resetA
  | kick (pid : Nat)
  | disconnect (sid : Nat) (now : Nat)
deriving DecidableEq, Repr

def applyAct (g : Game) : Act → Game × List Event
  | .join sid name => joinGame g sid name
  | .holdStartA sid now => holdStart g sid now
  | .holdEndA sid => holdEnd g sid
  | .startGameA now => startGameHandler g now
  | .countdownFinishA now => countdownFinish g now
  | .lightGreen now => switchToGreen g now
  | .lightRed => switchToRed g
  | .graceFire now => eliminateHolders g now
  | .tick now => progressTick g now
  | .resetA => resetLobbyFn g
  | .kick pid => kickPlayerFn g pid
  | .disconnect sid now => disconnectHandler g sid now

def stepGame (g : Game) (a : Act) : Game := (applyAct g a).1

def Act.isStartGameA : Act → Bool
  | .startGameA _ => true
  | _ => false

def Act.isDisconnect : Act → Bool
  | .disconnect _ _ => true
  | _ => false

/-- The server's state at process start. -/
def initGame : Game :=
  ⟨Phase.lobby, Light.red, [], 0, 100, false, [], [], [], false⟩

/-- The states the session can actually be in: everything generated from
the initial state by handler and timer actions. -/
inductive Reachable : Game → Prop where
  | init : Reachable initGame
  | step {g : Game} (a : Act) : Reachable g → Reachable (stepGame g a)

/-- What `endGame` does to the state, as a total function. -/
def finalize (g : Game) : Game :=
  if g.phase = Phase.gameOver then g
  else { g with phase := Phase.gameOver, light := Light.red }

/-- Shape of the state change produced by the round-termination checks
(`checkForGameEnd`, `checkSoftlock`, the tail of `eliminateHolders`):
either nothing, or only `endGame`, or one alive unfinished registered
player is stamped as a finisher and the game ends. -/
def TailShape (now : Nat) (g g' : Game) : Prop :=
  g' = g ∨ g' = finalize g ∨
    ∃ w, w ∈ g.players ∧ w.alive = true ∧ w.finishedAt = none ∧
      g' = finalize (pushFinish g w now)

/-- The rejection condition of `joinGame` as the code implements it: the
duplicate-name comparison uses the trimmed name truncated to 15
characters. -/
def joinRejects (g : Game) (name : String) : Prop :=
  (jsTrim name).length = 0 ∨ g.tournamentActive = true ∨ g.phase ≠ Phase.lobby ∨
    ∃ p ∈ g.players, jsToLower p.name = jsToLower (jsTake (jsTrim name) 15)

/-- The rejection condition of `joinGame` as the claim words it: the
submitted (trimmed, untruncated) name collides case-insensitively with an
existing player's name. -/
def joinRejectsClaim (g : Game) (name : String) : Prop :=
  (jsTrim name).length = 0 ∨ g.tournamentActive = true ∨ g.phase ≠ Phase.lobby ∨
    ∃ p ∈ g.players, jsToLower p.name = jsToLower (jsTrim name)

/-- `finishedAt != null ⇒ alive` for every registered player. -/
def FinisherAlive (g : Game) : Prop :=
  ∀ p ∈ g.players, p.finishedAt ≠ none → p.alive = true

/-- The core inductive invariant of the session (everything except the
finisher-holding property, which transiently fails inside a progress tick
and is therefore tracked separately). -/
structure InvCore (g : Game) : Prop where
  win : g.progressToWin = 100
  ids : (g.players.map Player.id).Nodup
  aliveElim : ∀ p ∈ g.players, p.alive = !p.eliminated
  elimHold : ∀ p ∈ g.players, p.eliminated = true → p.holding = false
  progLo : ∀ p ∈ g.players, 0 ≤ p.progress
  progHi : ∀ p ∈ g.players, p.progress ≤ 100
  cdHold : g.phase = Phase.countdown → ∀ p ∈ g.players, p.holding = false
  elimNodup : (g.eliminationOrder.map LogEntry.id).Nodup
  elimReg : ∀ e ∈ g.eliminationOrder, ∀ p ∈ g.players, p.id = e.id →
    p.eliminated = true
  finRound : ∀ f ∈ g.finishOrder, f.round ≤ g.round
  finCur : ∀ f ∈ g.finishOrder, f.round = g.round → ∀ p ∈ g.players,
    p.id = f.id → p.finishedAt ≠ none
  finNodup : (g.finishOrder.map fun f => (f.id, f.round)).Nodup
  lobbyLogs : g.phase = Phase.lobby → g.eliminationOrder = [] ∧ g.finishOrder = []
  lobbyTA : g.phase = Phase.lobby → g.tournamentActive = false
  lobbyProg : g.phase = Phase.lobby → ∀ p ∈ g.players, p.progress = 0

/-- A finisher can only still be "holding" after the round has ended
(the progress tick that stamps the finish also ends the round). -/
def FinHold (g : Game) : Prop :=
  ∀ p ∈ g.players, p.finishedAt ≠ none → p.holding = true →
    g.phase = Phase.gameOver

/-- The full inductive invariant of the session. -/
structure Inv (g : Game) : Prop where
  core : InvCore g
  finHold : FinHold g

/- Concrete reachable trace used by the C5 counterexample: one player
joins, a start request gives them a default tournament win, then they
disconnect while the session is in `gameOver` — the disconnect handler
eliminates the finisher. -/
def cexA1 : Game := stepGame initGame (Act.join 0 "A")
def cexA2 : Game := stepGame cexA1 (Act.startGameA 5)
def cexA3 : Game := stepGame cexA2 (Act.disconnect 0 6)

/- Concrete reachable trace used by the C4 counterexample: a second start
request while in `gameOver` pushes the same lone player into
`finishOrder` again; a disconnect then adds them to `eliminationOrder`
as well. -/
def cexB2 : Game := stepGame cexA2 (Act.startGameA 6)
def cexB3 : Game := stepGame cexB2 (Act.disconnect 0 7)

/- Concrete reachable trace used by the C3 counterexample: two players,
one eliminated at grace expiry (the other wins), then the eliminated
player is kicked — their elimination-log entry still produces a
leaderboard row, so the leaderboard has 2 entries for 1 registered
player. -/
def cexL1 : Game := stepGame cexA1 (Act.join 1 "B")
def cexL2 : Game := stepGame cexL1 (Act.startGameA 2)
def cexL3 : Game := stepGame cexL2 (Act.countdownFinishA 3)
def cexL4 : Game := stepGame cexL3 Act.lightRed
def cexL5 : Game := stepGame cexL4 (Act.holdStartA 0 4)
def cexL6 : Game := stepGame cexL5 (Act.graceFire 5)
def cexL7 : Game := stepGame cexL6 (Act.kick 0)

/- State used by the C9 counterexample: one registered player whose name
is 15 characters of `a`. -/
def cexJ1 : Game := stepGame initGame (Act.join 0 "aaaaaaaaaaaaaaa")

/- A "confirmed red" state: three players, round started, light switched
to red and the grace timer fired with nobody holding, so play continues
with `eliminationPending == false`. -/
def cexM1 : Game := stepGame cexL1 (Act.join 2 "C")
def cexM2 : Game := stepGame cexM1 (Act.startGameA 2)
def cexM3 : Game := stepGame cexM2 (Act.countdownFinishA 3)
def cexM4 : Game := stepGame cexM3 Act.lightRed
def cexM5 : Game := stepGame cexM4 (Act.graceFire 4)

/-! ### Generic list helpers -/

theorem map_id_of_preserve (f : Player → Player) (hf : ∀ p, (f p).id = p.id)
    (ps : List Player) : (ps.map f).map Player.id = ps.map Player.id := by
  induction ps with
  | nil => rfl
  | cons a t ih => simp only [List.map_cons, hf, ih]

theorem mem_map_of_id {ps : List Player} {p q : Player}
    (hn : (ps.map Player.id).Nodup) (f : Player → Player)
    (hf : ∀ p, (f p).id = p.id) (hp : p ∈ ps) (hq : q ∈ ps.map f)
    (he : q.id = p.id) : q = f p := by
  rcases List.mem_map.1 hq with ⟨r, hr, rfl⟩
  have hid : r.id = p.id := by rw [← hf r]; exact he
  have : r = p := List.inj_on_of_nodup_map hn hr hp hid
  rw [this]

/-! ### Structural lemmas about the state transformers -/

theorem endGame_fst (g : Game) (w : Option (Nat × String)) :
    (endGame g w).1 = finalize g := by
  unfold endGame finalize
  split <;> rfl

theorem finalize_players (g : Game) : (finalize g).players = g.players := by
  unfold finalize; split <;> rfl

theorem finalize_eliminationOrder (g : Game) :
    (finalize g).eliminationOrder = g.eliminationOrder := by
  unfold finalize; split <;> rfl

theorem finalize_finishOrder (g : Game) :
    (finalize g).finishOrder = g.finishOrder := by
  unfold finalize; split <;> rfl

theorem finalize_round (g : Game) : (finalize g).round = g.round := by
  unfold finalize; split <;> rfl

theorem finalize_phase (g : Game) : (finalize g).phase = Phase.gameOver := by
  unfold finalize
  split
  next h => exact h
  next => rfl

theorem setFinished_id (ps : List Player) (pid now : Nat) :
    (setFinished ps pid now).map Player.id = ps.map Player.id := by
  unfold setFinished
  exact map_id_of_preserve _ (fun p => by split <;> rfl) ps

/-! ### Tail-shape lemmas: the round-termination checks -/

theorem checkForGameEnd_shape (g : Game) (now : Nat) :
    TailShape now g (checkForGameEnd g now).1 := by
  unfold checkForGameEnd
  split
  · right; left; exact endGame_fst g none
  · split
    · right; left; exact endGame_fst g _
    · split
      next w x heq1 heq2 =>
        have hw : w ∈ aliveUnfinished g := by rw [heq1]; exact List.mem_cons_self w []
        have hw' := List.mem_filter.1 hw
        have halive : w.alive = true := by
          have := hw'.2
          simp only [Bool.and_eq_true] at this
          exact this.1
        have hfin : w.finishedAt = none := by
          have := hw'.2
          simp only [Bool.and_eq_true] at this
          exact Option.isNone_iff_eq_none.1 this.2
        right; right
        exact ⟨w, hw'.1, halive, hfin, endGame_fst _ _⟩
      next => left; rfl

theorem checkSoftlock_shape (g : Game) (now : Nat) :
    TailShape now g (checkSoftlock g now).1 := by
  unfold checkSoftlock
  split
  · left; rfl
  · split
    · right; left; exact endGame_fst g none
    next w heq =>
      have hw : w ∈ alivePlayers g := by rw [heq]; exact List.mem_cons_self w []
      have hw' := List.mem_filter.1 hw
      split
      next hfin =>
        right; right
        exact ⟨w, hw'.1, hw'.2, hfin, endGame_fst _ _⟩
      next => right; left; exact endGame_fst g _
    · left; rfl

theorem afterElimCheck_shape (g : Game) (now : Nat) :
    TailShape now g (afterElimCheck g now).1 := by
  unfold afterElimCheck
  split
  · right; left; exact endGame_fst g none
  next a heq =>
    have ha : a ∈ alivePlayers g := by rw [heq]; exact List.mem_cons_self a []
    have ha' := List.mem_filter.1 ha
    split
    next hfin =>
      right; right
      exact ⟨a, ha'.1, ha'.2, hfin, endGame_fst _ _⟩
    next =>
      split
      · exact checkForGameEnd_shape g now
      · left; rfl
  · split
    · exact checkForGameEnd_shape g now
    · left; rfl

theorem TailShape.elim_eq {now : Nat} {g g' : Game} (h : TailShape now g g') :
    g'.eliminationOrder = g.eliminationOrder := by
  rcases h with rfl | rfl | ⟨w, _, _, _, rfl⟩
  · rfl
  · exact finalize_eliminationOrder g
  · rw [finalize_eliminationOrder]; rfl

theorem TailShape.round_eq {now : Nat} {g g' : Game} (h : TailShape now g g') :
    g'.round = g.round := by
  rcases h with rfl | rfl | ⟨w, _, _, _, rfl⟩
  · rfl
  · exact finalize_round g
  · rw [finalize_round]; rfl

theorem TailShape.players_eq {now : Nat} {g g' : Game} (h : TailShape now g g') :
    g'.players = g.players ∨ ∃ pid, g'.players = setFinished g.players pid now := by
  rcases h with rfl | rfl | ⟨w, _, _, _, rfl⟩
  · left; rfl
  · left; exact finalize_players g
  · right; exact ⟨w.id, by rw [finalize_players]; rfl⟩

theorem applyAct_join (g : Game) (sid : Nat) (name : String) :
    applyAct g (Act.join sid name) = joinGame g sid name := rfl

theorem applyAct_holdStart (g : Game) (sid now : Nat) :
    applyAct g (Act.holdStartA sid now) = holdStart g sid now := rfl

theorem applyAct_holdEnd (g : Game) (sid : Nat) :
    applyAct g (Act.holdEndA sid) = holdEnd g sid := rfl

theorem applyAct_startGame (g : Game) (now : Nat) :
    applyAct g (Act.startGameA now) = startGameHandler g now := rfl

theorem applyAct_countdownFinish (g : Game) (now : Nat) :
    applyAct g (Act.countdownFinishA now) = countdownFinish g now := rfl

theorem applyAct_lightGreen (g : Game) (now : Nat) :
    applyAct g (Act.lightGreen now) = switchToGreen g now := rfl

theorem applyAct_lightRed (g : Game) :
    applyAct g Act.lightRed = switchToRed g := rfl

theorem applyAct_graceFire (g : Game) (now : Nat) :
    applyAct g (Act.graceFire now) = eliminateHolders g now := rfl

theorem applyAct_tick (g : Game) (now : Nat) :
    applyAct g (Act.tick now) = progressTick g now := rfl

theorem applyAct_reset (g : Game) :
    applyAct g Act.resetA = resetLobbyFn g := rfl

theorem applyAct_kick (g : Game) (pid : Nat) :
    applyAct g (Act.kick pid) = kickPlayerFn g pid := rfl

theorem applyAct_disconnect (g : Game) (sid now : Nat) :
    applyAct g (Act.disconnect sid now) = disconnectHandler g sid now := rfl

theorem stepGame_eq (g : Game) (a : Act) : stepGame g a = (applyAct g a).1 := rfl

theorem elimMark_id (r : Nat) (x : Player) : (elimMark r x).id = x.id := rfl

theorem ite_elim_id (r : Nat) (x : Player) :
    (if x.alive && x.holding then elimMark r x else x).id = x.id := by
  split <;> rfl

theorem ite_fin_id (pid now : Nat) (x : Player) :
    ((if x.id = pid then { x with finishedAt := some now } else x) : Player).id
      = x.id := by
  split <;> rfl

theorem ite_fin_alive (pid now : Nat) (x : Player) :
    ((if x.id = pid then { x with finishedAt := some now } else x) : Player).alive
      = x.alive := by
  split <;> rfl

theorem ite_fin_elimF (pid now : Nat) (x : Player) :
    ((if x.id = pid then { x with finishedAt := some now } else x) : Player).eliminated
      = x.eliminated := by
  split <;> rfl

theorem ite_hold_id (sid : Nat) (x : Player) :
    ((if x.id = sid then { x with holding := true } else x) : Player).id = x.id := by
  split <;> rfl

theorem ite_kill_id (r sid : Nat) (x : Player) :
    ((if x.id = sid then elimMark r x else x) : Player).id = x.id := by
  split <;> rfl

theorem find?_map_id (f : Player → Player) (hf : ∀ x, (f x).id = x.id)
    (ps : List Player) (sid : Nat) :
    ((ps.map f).find? fun q => q.id == sid)
      = (ps.find? fun q => q.id == sid).map f := by
  induction ps with
  | nil => rfl
  | cons a t ih =>
    simp only [List.map_cons, List.find?_cons, hf a]
    cases a.id == sid with
    | true => rfl
    | false => exact ih

theorem bulkEliminate_players (g : Game) :
    (bulkEliminate g).players
      = g.players.map fun p =>
          if p.alive && p.holding then elimMark g.round p else p := rfl

theorem bulkEliminate_elim (g : Game) :
    (bulkEliminate g).eliminationOrder
      = g.eliminationOrder
          ++ (bulkTargets g).map fun p => LogEntry.mk p.id p.name g.round := rfl

theorem setFinished_eq_map (ps : List Player) (pid now : Nat) :
    setFinished ps pid now
      = ps.map fun p =>
          if p.id = pid then { p with finishedAt := some now } else p := rfl

/-! ### Leaderboard positions -/

theorem enumFrom_map_pos {α : Type} (l : List α) (c k : Nat) :
    ((List.enumFrom c l).map fun x => k + x.1 + 1)
      = List.range' (k + c + 1) l.length := by
  induction l generalizing c with
  | nil => rfl
  | cons a t ih =>
    simp only [List.enumFrom_cons, List.map_cons, List.length_cons, List.range'_succ,
      List.cons.injEq, true_and]
    rw [show k + c + 1 + 1 = k + (c + 1) + 1 by omega]
    exact ih (c + 1)

theorem range'_append_one (s m n : Nat) :
    List.range' s m ++ List.range' (s + m) n = List.range' s (m + n) := by
  have h := List.range'_append s m n 1
  simp only [one_mul] at h
  rw [Nat.add_comm n m] at h
  exact h

/-- C3 (amended): for every state, the leaderboard positions are exactly
the gapless, duplicate-free run `1..M` where `M` is the number of
leaderboard entries, and `M` is the sum of the sizes of the three groups
(finish log, alive unfinished players, elimination log).  `M` need not
equal the registry size. -/
theorem getLeaderboard_length (g : Game) :
    (getLeaderboard g).length
      = g.finishOrder.length + (aliveUnfinished g).length
          + g.eliminationOrder.length := by
  unfold getLeaderboard
  simp only [List.length_append, List.length_map, List.enum_length,
    List.length_mergeSort, List.length_reverse]

theorem getLeaderboard_positions (g : Game) :
    (getLeaderboard g).map LBEntry.position
        = List.range' 1 (getLeaderboard g).length
    ∧ (getLeaderboard g).length
        = g.finishOrder.length + (aliveUnfinished g).length
            + g.eliminationOrder.length := by
  have hlen := getLeaderboard_length g
  refine ⟨?_, hlen⟩
  rw [hlen]
  unfold getLeaderboard
  simp only [List.map_append, List.map_map, List.enum, Function.comp_def]
  have h1 := enumFrom_map_pos g.finishOrder 0 0
  have h2 := enumFrom_map_pos
    ((aliveUnfinished g).mergeSort fun a b => decide (b.progress ≤ a.progress)) 0
    g.finishOrder.length
  have h3 := enumFrom_map_pos g.eliminationOrder.reverse 0
    (g.finishOrder.length +
      ((aliveUnfinished g).mergeSort fun a b => decide (b.progress ≤ a.progress)).length)
  simp only [Nat.zero_add, Nat.add_zero] at h1 h2 h3
  rw [show (fun x : Nat × LogEntry => x.1 + 1) = (fun x : Nat × LogEntry => 0 + x.1 + 1)
       by funext x; omega] at h1
  simp only [Nat.zero_add] at h1
  rw [h1, h2, h3]
  rw [List.length_mergeSort, List.length_reverse]
  have e2 : g.finishOrder.length + 1 = 1 + g.finishOrder.length := by omega
  have e3 : g.finishOrder.length + (aliveUnfinished g).length + 1
      = 1 + (g.finishOrder.length + (aliveUnfinished g).length) := by omega
  rw [e2, e3, range'_append_one, range'_append_one]

/-! ### C1: bulk elimination at grace expiry -/

/-- C1: when the grace timer fires while the phase is `playing` and the
light is red, every player alive and holding at that instant is
eliminated in the bulk pass (and appended to the elimination log, in
registry order), and every player not holding at that instant keeps their
`alive`/`eliminated` flags — they are not eliminated in that pass. -/
theorem eliminateHolders_spec (g : Game) (now : Nat)
    (hn : (g.players.map Player.id).Nodup)
    (hph : g.phase = Phase.playing) (hl : g.light = Light.red) :
    (stepGame g (Act.graceFire now)).eliminationOrder
        = g.eliminationOrder
            ++ (bulkTargets g).map (fun p => LogEntry.mk p.id p.name g.round)
    ∧ ∀ p ∈ g.players, ∀ q ∈ (stepGame g (Act.graceFire now)).players,
        q.id = p.id →
          (p.alive = true → p.holding = true →
              q.alive = false ∧ q.eliminated = true)
          ∧ (p.holding = false →
              q.alive = p.alive ∧ q.eliminated = p.eliminated) := by
  have hstep : stepGame g (Act.graceFire now)
      = (afterElimCheck (bulkEliminate g) now).1 := by
    rw [stepGame_eq, applyAct_graceFire]
    unfold eliminateHolders
    rw [if_pos ⟨hph, hl⟩]
  have tail := afterElimCheck_shape (bulkEliminate g) now
  constructor
  · rw [hstep, tail.elim_eq, bulkEliminate_elim]
  · intro p hp q hq hid
    rw [hstep] at hq
    have hcase : ∃ f : Player → Player,
        (∀ x, (f x).id = x.id) ∧
        (∀ x, (f x).alive
          = (if x.alive && x.holding then elimMark g.round x else x).alive) ∧
        (∀ x, (f x).eliminated
          = (if x.alive && x.holding then elimMark g.round x else x).eliminated) ∧
        q ∈ g.players.map f := by
      rcases tail.players_eq with hpl | ⟨pid, hpl⟩
      · refine ⟨fun x => if x.alive && x.holding then elimMark g.round x else x,
          fun x => ite_elim_id g.round x, fun x => rfl, fun x => rfl, ?_⟩
        rw [hpl, bulkEliminate_players] at hq
        exact hq
      · rw [hpl, bulkEliminate_players, setFinished_eq_map, List.map_map] at hq
        refine ⟨_, ?_, ?_, ?_, hq⟩
        · intro x
          rw [Function.comp_apply, ite_fin_id, ite_elim_id]
        · intro x
          rw [Function.comp_apply, ite_fin_alive]
        · intro x
          rw [Function.comp_apply, ite_fin_elimF]
    rcases hcase with ⟨f, hfid, hfa, hfe, hq'⟩
    have hqp : q = f p := mem_map_of_id hn f hfid hp hq' hid
    constructor
    · intro ha hh
      rw [hqp, hfa, hfe]
      rw [if_pos (by simp [ha, hh] : (p.alive && p.holding) = true)]
      exact ⟨rfl, rfl⟩
    · intro hh
      rw [hqp, hfa, hfe]
      rw [if_neg (by simp [hh] : ¬ (p.alive && p.holding) = true)]
      exact ⟨rfl, rfl⟩

theorem eliminateHolders_spec_witness :
    ((cexL5.players.map Player.id).Nodup
      ∧ cexL5.phase = Phase.playing ∧ cexL5.light = Light.red) ∧
    ((stepGame cexL5 (Act.graceFire 5)).eliminationOrder
        = cexL5.eliminationOrder
            ++ (bulkTargets cexL5).map (fun p => LogEntry.mk p.id p.name cexL5.round)
    ∧ ∀ p ∈ cexL5.players, ∀ q ∈ (stepGame cexL5 (Act.graceFire 5)).players,
        q.id = p.id →
          (p.alive = true → p.holding = true →
              q.alive = false ∧ q.eliminated = true)
          ∧ (p.holding = false →
              q.alive = p.alive ∧ q.eliminated = p.eliminated)) :=
  ⟨⟨by decide, by decide, by decide⟩,
   eliminateHolders_spec cexL5 5 (by decide) (by decide) (by decide)⟩

/-! ### C2: immediate elimination on confirmed red -/

/-- C2: a `holdStart` from a registered, alive, non-eliminated, unfinished
player while the phase is `playing`, the light is red and
`eliminationPending` is false eliminates exactly that player as part of
handling the action: their record is marked dead/eliminated, exactly one
entry for them is appended to the elimination log, and a single-player
`eliminations` event is emitted. -/
theorem holdStart_confirmedRed (g : Game) (sid now : Nat) (p : Player)
    (hfind : (g.players.find? fun q => q.id == sid) = some p)
    (halive : p.alive = true) (helim : p.eliminated = false)
    (hfin : p.finishedAt = none) (hph : g.phase = Phase.playing)
    (hl : g.light = Light.red) (hpend : g.eliminationPending = false) :
    (∀ q ∈ (stepGame g (Act.holdStartA sid now)).players, q.id = sid →
        q.alive = false ∧ q.eliminated = true)
    ∧ (stepGame g (Act.holdStartA sid now)).eliminationOrder
        = g.eliminationOrder ++ [LogEntry.mk p.id p.name g.round]
    ∧ Event.eliminations [(p.id, p.name)]
        ∈ (applyAct g (Act.holdStartA sid now)).2 := by
  have hpid : p.id = sid := by
    have := List.find?_some hfind
    simpa using this
  have hfind1 : ((g.players.map fun q =>
        if q.id = sid then { q with holding := true } else q).find?
          fun q => q.id == sid)
      = some { p with holding := true } := by
    rw [find?_map_id _ (fun x => ite_hold_id sid x), hfind]
    dsimp only [Option.map]
    rw [if_pos hpid]
  have hstep : applyAct g (Act.holdStartA sid now)
      = ((checkSoftlock (Game.mk g.phase g.light
            ((g.players.map fun q =>
                if q.id = sid then { q with holding := true } else q).map
              fun q => if q.id = sid then elimMark g.round q else q)
            g.round g.progressToWin g.eliminationPending
            (g.eliminationOrder ++ [LogEntry.mk p.id p.name g.round])
            g.finishOrder g.usedNames g.tournamentActive) now).1,
          ([Event.eliminations [(p.id, p.name)], Event.eliminatedMsg p.id]
            ++ broadcastAll (Game.mk g.phase g.light
              ((g.players.map fun q =>
                  if q.id = sid then { q with holding := true } else q).map
                fun q => if q.id = sid then elimMark g.round q else q)
              g.round g.progressToWin g.eliminationPending
              (g.eliminationOrder ++ [LogEntry.mk p.id p.name g.round])
              g.finishOrder g.usedNames g.tournamentActive))
          ++ (checkSoftlock (Game.mk g.phase g.light
              ((g.players.map fun q =>
                  if q.id = sid then { q with holding := true } else q).map
                fun q => if q.id = sid then elimMark g.round q else q)
              g.round g.progressToWin g.eliminationPending
              (g.eliminationOrder ++ [LogEntry.mk p.id p.name g.round])
              g.finishOrder g.usedNames g.tournamentActive) now).2) := by
    rw [applyAct_holdStart]
    unfold holdStart
    rw [hfind]
    dsimp only
    rw [if_neg (by simp [halive, helim, hfin, hph]), if_pos ⟨hl, hpend⟩]
    unfold eliminatePlayer
    dsimp only
    rw [hfind1]
  rw [stepGame_eq, hstep]
  dsimp only
  have tail := checkSoftlock_shape (Game.mk g.phase g.light
      ((g.players.map fun q =>
          if q.id = sid then { q with holding := true } else q).map
        fun q => if q.id = sid then elimMark g.round q else q)
      g.round g.progressToWin g.eliminationPending
      (g.eliminationOrder ++ [LogEntry.mk p.id p.name g.round])
      g.finishOrder g.usedNames g.tournamentActive) now
  refine ⟨?_, ?_, ?_⟩
  · intro q hq hqid
    have hcase : ∃ f : Player → Player,
        (∀ x, (f x).id = x.id) ∧
        (∀ x, x.id = sid → (f x).alive = false ∧ (f x).eliminated = true) ∧
        q ∈ g.players.map f := by
      rcases tail.players_eq with hpl | ⟨pid, hpl⟩
      · rw [hpl] at hq
        dsimp only at hq
        rw [List.map_map] at hq
        refine ⟨_, ?_, ?_, hq⟩
        · intro x
          rw [Function.comp_apply, ite_kill_id, ite_hold_id]
        · intro x hx
          rw [Function.comp_apply, if_pos hx,
            if_pos (hx : ({ x with holding := true } : Player).id = sid)]
          exact ⟨rfl, rfl⟩
      · rw [hpl] at hq
        dsimp only at hq
        rw [setFinished_eq_map, List.map_map, List.map_map] at hq
        refine ⟨_, ?_, ?_, hq⟩
        · intro x
          rw [Function.comp_apply, Function.comp_apply, ite_fin_id, ite_kill_id,
            ite_hold_id]
        · intro x hx
          rw [Function.comp_apply, Function.comp_apply, if_pos hx,
            if_pos (hx : ({ x with holding := true } : Player).id = sid)]
          rw [ite_fin_alive, ite_fin_elimF]
          exact ⟨rfl, rfl⟩
    rcases hcase with ⟨f, hfid, hfkill, hq'⟩
    rcases List.mem_map.1 hq' with ⟨r, hr, rfl⟩
    exact hfkill r (by rw [← hfid r]; exact hqid)
  · rw [tail.elim_eq]
  · simp


theorem holdStart_confirmedRed_witness :
    ((cexM5.players.find? fun q => q.id == 0)
        = some (Player.mk 0 "A" 0 true false false none none)
      ∧ (Player.mk 0 "A" 0 true false false none none).alive = true
      ∧ (Player.mk 0 "A" 0 true false false none none).eliminated = false
      ∧ (Player.mk 0 "A" 0 true false false none none).finishedAt = none
      ∧ cexM5.phase = Phase.playing ∧ cexM5.light = Light.red
      ∧ cexM5.eliminationPending = false)
    ∧ ((∀ q ∈ (stepGame cexM5 (Act.holdStartA 0 9)).players, q.id = 0 →
          q.alive = false ∧ q.eliminated = true)
      ∧ (stepGame cexM5 (Act.holdStartA 0 9)).eliminationOrder
          = cexM5.eliminationOrder
            ++ [LogEntry.mk (Player.mk 0 "A" 0 true false false none none).id
                  (Player.mk 0 "A" 0 true false false none none).name cexM5.round]
      ∧ Event.eliminations
            [((Player.mk 0 "A" 0 true false false none none).id,
              (Player.mk 0 "A" 0 true false false none none).name)]
          ∈ (applyAct cexM5 (Act.holdStartA 0 9)).2) :=
  ⟨⟨by decide, rfl, rfl, rfl, by decide, by decide, by decide⟩,
   holdStart_confirmedRed cexM5 0 9 (Player.mk 0 "A" 0 true false false none none)
     (by decide) rfl rfl rfl (by decide) (by decide) (by decide)⟩

/-! ### C7: startGame request -/

/-- C7: a `startGame` request in phase `lobby` or `gameOver` does nothing
when no player is alive; with exactly one alive player it does not run a
round but declares that player tournament winner on the spot (finish
stamped, appended to `finishOrder` for the incremented round, phase
`gameOver`, and — when not already in `gameOver` — a `gameOver` broadcast
with that winner); with two or more alive players it starts the countdown
of a new round. -/
theorem startGame_spec (g : Game) (now : Nat)
    (hph : g.phase = Phase.lobby ∨ g.phase = Phase.gameOver) :
    (alivePlayers g = [] → applyAct g (Act.startGameA now) = (g, []))
    ∧ (∀ w, alivePlayers g = [w] →
        (stepGame g (Act.startGameA now)).finishOrder
            = g.finishOrder ++ [LogEntry.mk w.id w.name (g.round + 1)]
        ∧ (stepGame g (Act.startGameA now)).phase = Phase.gameOver
        ∧ (stepGame g (Act.startGameA now)).round = g.round + 1
        ∧ (∀ q ∈ (stepGame g (Act.startGameA now)).players, q.id = w.id →
            q.finishedAt = some now)
        ∧ (g.phase = Phase.lobby →
            Event.gameOverMsg (some (w.id, w.name))
              ∈ (applyAct g (Act.startGameA now)).2))
    ∧ (∀ w1 w2 rest, alivePlayers g = w1 :: w2 :: rest →
        (stepGame g (Act.startGameA now)).phase = Phase.countdown
        ∧ (stepGame g (Act.startGameA now)).round = g.round + 1
        ∧ (stepGame g (Act.startGameA now)).tournamentActive = true
        ∧ Event.countdownTick 3 ∈ (applyAct g (Act.startGameA now)).2) := by
  refine ⟨?_, ?_, ?_⟩
  · intro hal
    rw [applyAct_startGame]
    unfold startGameHandler
    rw [if_pos hph, hal]
  · intro w hal
    simp only [stepGame_eq, applyAct_startGame]
    unfold startGameHandler
    rw [if_pos hph, hal]
    dsimp only
    rw [endGame_fst]
    refine ⟨?_, ?_, ?_, ?_, ?_⟩
    · rw [finalize_finishOrder]
    · rw [finalize_phase]
    · rw [finalize_round]
    · intro q hq hqid
      rw [finalize_players] at hq
      dsimp only at hq
      rw [setFinished_eq_map] at hq
      rcases List.mem_map.1 hq with ⟨r, hr, rfl⟩
      by_cases hrid : r.id = w.id
      · rw [if_pos hrid]
      · rw [if_neg hrid] at hqid ⊢
        exact absurd hqid hrid
    · intro hlob
      unfold endGame
      rw [if_neg (by rw [hlob]; intro h; exact Phase.noConfusion h)]
      exact List.mem_cons_self _ _
  · intro w1 w2 rest hal
    simp only [stepGame_eq, applyAct_startGame]
    unfold startGameHandler
    rw [if_pos hph, hal]
    dsimp only
    unfold startGameFn
    rw [if_neg (by rw [hal]; intro h; exact List.noConfusion h)]
    refine ⟨rfl, rfl, rfl, ?_⟩
    simp


theorem startGame_spec_witness :
    (cexA1.phase = Phase.lobby ∨ cexA1.phase = Phase.gameOver)
    ∧ ((alivePlayers cexA1 = [] → applyAct cexA1 (Act.startGameA 5) = (cexA1, []))
    ∧ (∀ w, alivePlayers cexA1 = [w] →
        (stepGame cexA1 (Act.startGameA 5)).finishOrder
            = cexA1.finishOrder ++ [LogEntry.mk w.id w.name (cexA1.round + 1)]
        ∧ (stepGame cexA1 (Act.startGameA 5)).phase = Phase.gameOver
        ∧ (stepGame cexA1 (Act.startGameA 5)).round = cexA1.round + 1
        ∧ (∀ q ∈ (stepGame cexA1 (Act.startGameA 5)).players, q.id = w.id →
            q.finishedAt = some 5)
        ∧ (cexA1.phase = Phase.lobby →
            Event.gameOverMsg (some (w.id, w.name))
              ∈ (applyAct cexA1 (Act.startGameA 5)).2))
    ∧ (∀ w1 w2 rest, alivePlayers cexA1 = w1 :: w2 :: rest →
        (stepGame cexA1 (Act.startGameA 5)).phase = Phase.countdown
        ∧ (stepGame cexA1 (Act.startGameA 5)).round = cexA1.round + 1
        ∧ (stepGame cexA1 (Act.startGameA 5)).tournamentActive = true
        ∧ Event.countdownTick 3 ∈ (applyAct cexA1 (Act.startGameA 5)).2)) :=
  ⟨Or.inl (by decide), startGame_spec cexA1 5 (Or.inl (by decide))⟩

/-! ### C8: endGame is idempotent -/

/-- C8: calling `endGame` while the phase is already `gameOver` leaves the
whole state unchanged and emits nothing. -/
theorem endGame_idem (g : Game) (w : Option (Nat × String))
    (h : g.phase = Phase.gameOver) : endGame g w = (g, []) := by
  unfold endGame
  rw [if_pos h]

theorem endGame_idem_witness :
    cexA2.phase = Phase.gameOver ∧ endGame cexA2 none = (cexA2, []) :=
  ⟨by decide, endGame_idem cexA2 none (by decide)⟩

/-! ### C10: holdStart guard -/

/-- C10: a `holdStart` from a player that is not registered, not alive,
already eliminated, or already finished, or that arrives while the phase
is not `playing`, is a complete no-op: the state is unchanged (so holding
is not set and nobody — in particular no finisher — is eliminated) and
nothing is emitted. -/
theorem holdStart_noop (g : Game) (sid now : Nat)
    (h : ∀ p ∈ g.players, p.id = sid →
      p.alive = false ∨ p.eliminated = true ∨ p.finishedAt ≠ none
        ∨ g.phase ≠ Phase.playing) :
    holdStart g sid now = (g, []) := by
  unfold holdStart
  cases hf : g.players.find? fun q => q.id == sid with
  | none => rfl
  | some p =>
    have hp : p ∈ g.players := List.mem_of_find?_eq_some hf
    have hid : p.id = sid := by
      have := List.find?_some hf
      simpa using this
    dsimp only
    rw [if_pos (h p hp hid)]

/-! ### C9: joinGame validation -/

/-- C9 (amended): a `joinGame(name)` request is rejected with a reason
string (a `joinError` event and an unchanged state) exactly when the
trimmed name is empty, or `tournamentActive` is true, or the phase is not
`lobby`, or the trimmed name **truncated to 15 characters**
case-insensitively equals an existing registered player's name; otherwise
a new player (name trimmed and capped at 15 characters, progress 0,
alive, not holding) is added to the registry. -/
theorem joinGame_spec (g : Game) (sid : Nat) (name : String) :
    (joinRejects g name →
      (joinGame g sid name).1 = g
        ∧ ∃ r, (joinGame g sid name).2 = [Event.joinError r]) ∧
    (¬ joinRejects g name →
      (joinGame g sid name).2
          = [Event.joined sid (createPlayer sid (jsTake (jsTrim name) 15)).name,
             Event.playerJoined sid (createPlayer sid (jsTake (jsTrim name) 15)).name,
             Event.gameState]
        ∧ createPlayer sid (jsTake (jsTrim name) 15) ∈ (joinGame g sid name).1.players
        ∧ (createPlayer sid (jsTake (jsTrim name) 15)).progress = 0
        ∧ (createPlayer sid (jsTake (jsTrim name) 15)).alive = true
        ∧ (createPlayer sid (jsTake (jsTrim name) 15)).holding = false) := by
  unfold joinGame joinRejects
  by_cases h1 : (jsTrim name).length = 0
  · rw [if_pos h1]
    exact ⟨fun _ => ⟨rfl, _, rfl⟩, fun hn => absurd (Or.inl h1) hn⟩
  · rw [if_neg h1]
    by_cases h2 : g.tournamentActive = true
    · rw [if_pos h2]
      exact ⟨fun _ => ⟨rfl, _, rfl⟩, fun hn => absurd (Or.inr (Or.inl h2)) hn⟩
    · rw [if_neg h2]
      by_cases h3 : g.phase ≠ Phase.lobby
      · rw [if_pos h3]
        exact ⟨fun _ => ⟨rfl, _, rfl⟩,
          fun hn => absurd (Or.inr (Or.inr (Or.inl h3))) hn⟩
      · rw [if_neg h3]
        by_cases h4 : (g.players.map fun p => jsToLower p.name).contains
            (jsToLower (jsTake (jsTrim name) 15)) = true
        · rw [if_pos h4]
          have hex : ∃ p, p ∈ g.players
              ∧ jsToLower p.name = jsToLower (jsTake (jsTrim name) 15) := by
            have hm : jsToLower (jsTake (jsTrim name) 15)
                ∈ g.players.map fun p => jsToLower p.name := List.elem_iff.mp h4
            rcases List.mem_map.1 hm with ⟨p, hp, he⟩
            exact ⟨p, hp, he⟩
          exact ⟨fun _ => ⟨rfl, _, rfl⟩,
            fun hn => absurd (Or.inr (Or.inr (Or.inr hex))) hn⟩
        · rw [if_neg h4]
          refine ⟨fun hr => ?_, fun _ => ?_⟩
          · rcases hr with h | h | h | ⟨p, hp, he⟩
            · exact absurd h h1
            · exact absurd h h2
            · exact absurd h h3
            · exact absurd (List.elem_iff.mpr (List.mem_map.2 ⟨p, hp, he⟩)) h4
          · refine ⟨rfl, ?_, rfl, rfl, rfl⟩
            dsimp only
            split
            next hany =>
              obtain ⟨q, hq, hqe⟩ := List.any_eq_true.mp hany
              have hqid : q.id = sid := by simpa using hqe
              exact List.mem_map.2 ⟨q, hq, by rw [if_pos hqid]⟩
            next => exact List.mem_append.2 (Or.inr (List.mem_cons_self _ _))

theorem joinGame_spec_witness :
    (¬ joinRejects initGame "Alice") ∧
    ((joinRejects initGame "Alice" →
      (joinGame initGame 0 "Alice").1 = initGame
        ∧ ∃ r, (joinGame initGame 0 "Alice").2 = [Event.joinError r]) ∧
    (¬ joinRejects initGame "Alice" →
      (joinGame initGame 0 "Alice").2
          = [Event.joined 0 (createPlayer 0 (jsTake (jsTrim "Alice") 15)).name,
             Event.playerJoined 0 (createPlayer 0 (jsTake (jsTrim "Alice") 15)).name,
             Event.gameState]
        ∧ createPlayer 0 (jsTake (jsTrim "Alice") 15)
            ∈ (joinGame initGame 0 "Alice").1.players
        ∧ (createPlayer 0 (jsTake (jsTrim "Alice") 15)).progress = 0
        ∧ (createPlayer 0 (jsTake (jsTrim "Alice") 15)).alive = true
        ∧ (createPlayer 0 (jsTake (jsTrim "Alice") 15)).holding = false)) :=
  ⟨by unfold joinRejects; decide, joinGame_spec initGame 0 "Alice"⟩

/-- C9 counterexample: with a registered player named
`aaaaaaaaaaaaaaa` (15 characters), joining as `aaaaaaaaaaaaaaaa`
(16 characters) is rejected by the code (the comparison truncates to 15
characters first), although the claim's rejection condition — the
submitted name case-insensitively equals an existing player's name — is
false for this input, so the claim's "exactly when" fails. -/
theorem joinGame_claim_cex :
    ¬ joinRejectsClaim cexJ1 "aaaaaaaaaaaaaaaa"
    ∧ (joinGame cexJ1 1 "aaaaaaaaaaaaaaaa").1 = cexJ1
    ∧ (joinGame cexJ1 1 "aaaaaaaaaaaaaaaa").2
        = [Event.joinError "Name already taken! Pick another."] := by
  refine ⟨?_, by decide, by decide⟩
  unfold joinRejectsClaim
  decide

theorem holdStart_noop_witness :
    (∀ p ∈ cexA2.players, p.id = 0 →
      p.alive = false ∨ p.eliminated = true ∨ p.finishedAt ≠ none
        ∨ cexA2.phase ≠ Phase.playing) ∧
    holdStart cexA2 0 9 = (cexA2, []) :=
  ⟨by decide, holdStart_noop cexA2 0 9 (by decide)⟩

/-! ### Invariant machinery: building blocks -/

theorem ite_fin_hold (pid now : Nat) (x : Player) :
    ((if x.id = pid then { x with finishedAt := some now } else x) : Player).holding
      = x.holding := by
  split <;> rfl

theorem ite_fin_prog (pid now : Nat) (x : Player) :
    ((if x.id = pid then { x with finishedAt := some now } else x) : Player).progress
      = x.progress := by
  split <;> rfl

theorem finalize_win (g : Game) : (finalize g).progressToWin = g.progressToWin := by
  unfold finalize; split <;> rfl

theorem finalize_tournamentActive (g : Game) :
    (finalize g).tournamentActive = g.tournamentActive := by
  unfold finalize; split <;> rfl

theorem pushFinish_players (g : Game) (w : Player) (now : Nat) :
    (pushFinish g w now).players = setFinished g.players w.id now := rfl

theorem pushFinish_finishOrder (g : Game) (w : Player) (now : Nat) :
    (pushFinish g w now).finishOrder
      = g.finishOrder ++ [LogEntry.mk w.id w.name g.round] := rfl

theorem pushFinish_elim (g : Game) (w : Player) (now : Nat) :
    (pushFinish g w now).eliminationOrder = g.eliminationOrder := rfl

theorem pushFinish_round (g : Game) (w : Player) (now : Nat) :
    (pushFinish g w now).round = g.round := rfl

theorem progressRate_pos (r : Nat) : 0 < (getDifficulty r).progressRate := by
  unfold getDifficulty
  set k := min (r - 1) (DIFFICULTY.length - 1) with hk
  have h4 : k ≤ 4 := le_trans (min_le_right _ _) (by norm_num [DIFFICULTY])
  interval_cases k <;> norm_num [DIFFICULTY]

theorem invCore_finalize (g : Game) (h : InvCore g) : InvCore (finalize g) := by
  unfold finalize
  split
  · exact h
  · exact ⟨h.win, h.ids, h.aliveElim, h.elimHold, h.progLo, h.progHi,
      (fun hph => nomatch hph), h.elimNodup, h.elimReg, h.finRound, h.finCur,
      h.finNodup, (fun hph => nomatch hph), (fun hph => nomatch hph),
      (fun hph => nomatch hph)⟩

theorem finHold_finalize (g : Game) : FinHold (finalize g) :=
  fun _ _ _ _ => finalize_phase g

theorem invCore_pushFin (g : Game) (w : Player) (now : Nat) (hw : w ∈ g.players)
    (ha : w.alive = true) (hf : w.finishedAt = none) (h : InvCore g) :
    InvCore (finalize (pushFinish g w now)) := by
  refine ⟨?_, ?_, ?_, ?_, ?_, ?_, ?_, ?_, ?_, ?_, ?_, ?_, ?_, ?_, ?_⟩
  · rw [finalize_win]; exact h.win
  · rw [finalize_players, pushFinish_players, setFinished_id]; exact h.ids
  · intro p' hp'
    rw [finalize_players, pushFinish_players, setFinished_eq_map] at hp'
    rcases List.mem_map.1 hp' with ⟨r, hr, rfl⟩
    rw [ite_fin_alive, ite_fin_elimF]
    exact h.aliveElim r hr
  · intro p' hp'
    rw [finalize_players, pushFinish_players, setFinished_eq_map] at hp'
    rcases List.mem_map.1 hp' with ⟨r, hr, rfl⟩
    rw [ite_fin_elimF, ite_fin_hold]
    exact h.elimHold r hr
  · intro p' hp'
    rw [finalize_players, pushFinish_players, setFinished_eq_map] at hp'
    rcases List.mem_map.1 hp' with ⟨r, hr, rfl⟩
    rw [ite_fin_prog]
    exact h.progLo r hr
  · intro p' hp'
    rw [finalize_players, pushFinish_players, setFinished_eq_map] at hp'
    rcases List.mem_map.1 hp' with ⟨r, hr, rfl⟩
    rw [ite_fin_prog]
    exact h.progHi r hr
  · intro hph
    rw [finalize_phase] at hph
    exact nomatch hph
  · rw [finalize_eliminationOrder, pushFinish_elim]; exact h.elimNodup
  · intro e he p' hp' hid
    rw [finalize_eliminationOrder, pushFinish_elim] at he
    rw [finalize_players, pushFinish_players, setFinished_eq_map] at hp'
    rcases List.mem_map.1 hp' with ⟨r, hr, rfl⟩
    rw [ite_fin_id] at hid
    rw [ite_fin_elimF]
    exact h.elimReg e he r hr hid
  · intro f hf'
    rw [finalize_finishOrder, pushFinish_finishOrder] at hf'
    rw [finalize_round, pushFinish_round]
    rcases List.mem_append.1 hf' with hold | hnew
    · exact h.finRound f hold
    · rw [List.mem_singleton.1 hnew]
  · intro f hf' hfr p' hp' hid
    rw [finalize_finishOrder, pushFinish_finishOrder] at hf'
    rw [finalize_round, pushFinish_round] at hfr
    rw [finalize_players, pushFinish_players, setFinished_eq_map] at hp'
    rcases List.mem_map.1 hp' with ⟨r, hr, rfl⟩
    rw [ite_fin_id] at hid
    by_cases hrw : r.id = w.id
    · rw [if_pos hrw]
      simp
    · rw [if_neg hrw]
      rcases List.mem_append.1 hf' with hold | hnew
      · exact h.finCur f hold hfr r hr hid
      · rw [List.mem_singleton.1 hnew] at hid
        exact absurd hid hrw
  · rw [finalize_finishOrder, pushFinish_finishOrder, List.map_append]
    rw [List.nodup_append]
    refine ⟨h.finNodup, by simp, ?_⟩
    intro x hx hx'
    simp only [List.map_cons, List.map_nil, List.mem_singleton] at hx'
    rcases List.mem_map.1 hx with ⟨f, hfm, rfl⟩
    have h1 : f.id = w.id := (Prod.ext_iff.1 hx').1
    have h2 : f.round = g.round := (Prod.ext_iff.1 hx').2
    exact absurd (h.finCur f hfm h2 w hw h1.symm) (by simp [hf])
  · intro hph
    rw [finalize_phase] at hph
    exact nomatch hph
  · intro hph
    rw [finalize_phase] at hph
    exact nomatch hph
  · intro hph
    rw [finalize_phase] at hph
    exact nomatch hph

theorem invCore_tail {now : Nat} {g g' : Game} (hs : TailShape now g g')
    (h : InvCore g) : InvCore g' := by
  rcases hs with rfl | rfl | ⟨w, hw, ha, hf, rfl⟩
  · exact h
  · exact invCore_finalize g h
  · exact invCore_pushFin g w now hw ha hf h

theorem finHold_tail {now : Nat} {g g' : Game} (hs : TailShape now g g')
    (h : FinHold g) : FinHold g' := by
  rcases hs with rfl | rfl | ⟨w, hw, ha, hf, rfl⟩
  · exact h
  · exact finHold_finalize g
  · exact finHold_finalize _

theorem inv_tail {now : Nat} {g g' : Game} (hs : TailShape now g g')
    (h : Inv g) : Inv g' :=
  ⟨invCore_tail hs h.core, finHold_tail hs h.finHold⟩

/-! ### Invariant preservation, action by action -/

theorem inv_lightPending (g : Game) (l : Light) (b : Bool) (h : Inv g) :
    Inv { g with light := l, eliminationPending := b } :=
  ⟨⟨h.core.win, h.core.ids, h.core.aliveElim, h.core.elimHold, h.core.progLo,
    h.core.progHi, h.core.cdHold, h.core.elimNodup, h.core.elimReg,
    h.core.finRound, h.core.finCur, h.core.finNodup, h.core.lobbyLogs,
    h.core.lobbyTA, h.core.lobbyProg⟩, h.finHold⟩

theorem inv_lightRed (g : Game) (h : Inv g) : Inv (stepGame g Act.lightRed) := by
  rw [stepGame_eq, applyAct_lightRed]
  unfold switchToRed
  split
  · exact h
  · exact inv_lightPending g Light.red true h

theorem inv_lightGreen (g : Game) (now : Nat) (h : Inv g) :
    Inv (stepGame g (Act.lightGreen now)) := by
  rw [stepGame_eq, applyAct_lightGreen]
  unfold switchToGreen
  split
  · exact h
  · split
    · exact inv_tail (checkForGameEnd_shape g now) h
    · exact inv_lightPending g Light.green false h

theorem inv_countdownFinish (g : Game) (now : Nat) (h : Inv g) :
    Inv (stepGame g (Act.countdownFinishA now)) := by
  rw [stepGame_eq, applyAct_countdownFinish]
  unfold countdownFinish
  split
  case isTrue hph =>
    have hcd := h.core.cdHold hph
    have hP : Inv { g with phase := Phase.playing } := by
      refine ⟨⟨h.core.win, h.core.ids, h.core.aliveElim, h.core.elimHold,
        h.core.progLo, h.core.progHi, (fun hc => nomatch hc), h.core.elimNodup,
        h.core.elimReg, h.core.finRound, h.core.finCur, h.core.finNodup,
        (fun hc => nomatch hc), (fun hc => nomatch hc),
        (fun hc => nomatch hc)⟩, ?_⟩
      intro p hp hf hh
      rw [hcd p hp] at hh
      exact nomatch hh
    unfold switchToGreen
    split
    · exact hP
    · split
      · exact inv_tail (checkForGameEnd_shape _ now) hP
      · exact inv_lightPending _ Light.green false hP
  case isFalse => exact h

theorem inv_holdEnd (g : Game) (sid : Nat) (h : Inv g) :
    Inv (stepGame g (Act.holdEndA sid)) := by
  rw [stepGame_eq, applyAct_holdEnd]
  unfold holdEnd
  cases hf : g.players.find? fun q => q.id == sid with
  | none => exact h
  | some p =>
    dsimp only
    refine ⟨⟨h.core.win, ?_, ?_, ?_, ?_, ?_, ?_, h.core.elimNodup, ?_,
      h.core.finRound, ?_, h.core.finNodup, h.core.lobbyLogs, h.core.lobbyTA,
      ?_⟩, ?_⟩
    · rw [map_id_of_preserve
        (fun q => if q.id = sid then { q with holding := false } else q)
        (fun x => by dsimp only; split <;> rfl) g.players]
      exact h.core.ids
    · intro p' hp'
      rcases List.mem_map.1 hp' with ⟨r, hr, rfl⟩
      by_cases hc : r.id = sid
      · rw [if_pos hc]; exact h.core.aliveElim r hr
      · rw [if_neg hc]; exact h.core.aliveElim r hr
    · intro p' hp'
      rcases List.mem_map.1 hp' with ⟨r, hr, rfl⟩
      by_cases hc : r.id = sid
      · rw [if_pos hc]; intro _; rfl
      · rw [if_neg hc]; exact h.core.elimHold r hr
    · intro p' hp'
      rcases List.mem_map.1 hp' with ⟨r, hr, rfl⟩
      by_cases hc : r.id = sid
      · rw [if_pos hc]; exact h.core.progLo r hr
      · rw [if_neg hc]; exact h.core.progLo r hr
    · intro p' hp'
      rcases List.mem_map.1 hp' with ⟨r, hr, rfl⟩
      by_cases hc : r.id = sid
      · rw [if_pos hc]; exact h.core.progHi r hr
      · rw [if_neg hc]; exact h.core.progHi r hr
    · intro hph p' hp'
      rcases List.mem_map.1 hp' with ⟨r, hr, rfl⟩
      by_cases hc : r.id = sid
      · rw [if_pos hc]
      · rw [if_neg hc]; exact h.core.cdHold hph r hr
    · intro e he p' hp' hid
      rcases List.mem_map.1 hp' with ⟨r, hr, rfl⟩
      by_cases hc : r.id = sid
      · rw [if_pos hc] at hid ⊢; exact h.core.elimReg e he r hr hid
      · rw [if_neg hc] at hid ⊢; exact h.core.elimReg e he r hr hid
    · intro f hf' hfr p' hp' hid
      rcases List.mem_map.1 hp' with ⟨r, hr, rfl⟩
      by_cases hc : r.id = sid
      · rw [if_pos hc] at hid ⊢; exact h.core.finCur f hf' hfr r hr hid
      · rw [if_neg hc] at hid ⊢; exact h.core.finCur f hf' hfr r hr hid
    · intro hph p' hp'
      rcases List.mem_map.1 hp' with ⟨r, hr, rfl⟩
      by_cases hc : r.id = sid
      · rw [if_pos hc]; exact h.core.lobbyProg hph r hr
      · rw [if_neg hc]; exact h.core.lobbyProg hph r hr
    · intro p' hp'
      rcases List.mem_map.1 hp' with ⟨r, hr, rfl⟩
      by_cases hc : r.id = sid
      · rw [if_pos hc]
        intro _ hh
        exact nomatch hh
      · rw [if_neg hc]; exact h.finHold r hr

theorem inv_reset (g : Game) (h : Inv g) : Inv (stepGame g Act.resetA) := by
  rw [stepGame_eq, applyAct_reset]
  unfold resetLobbyFn
  dsimp only
  exact ⟨⟨h.core.win, by simp, by simp, by simp, by simp, by simp,
    (fun _ => by simp), by simp, by simp, by simp, by simp, by simp,
    (fun _ => ⟨rfl, rfl⟩), (fun _ => rfl), (fun _ => by simp)⟩,
    by intro p hp; exact absurd hp (List.not_mem_nil p)⟩

theorem inv_kick (g : Game) (pid : Nat) (h : Inv g) :
    Inv (stepGame g (Act.kick pid)) := by
  rw [stepGame_eq, applyAct_kick]
  unfold kickPlayerFn
  dsimp only
  have hsub : ∀ p : Player, p ∈ g.players.filter (fun p => p.id != pid) →
      p ∈ g.players := fun p hp => List.mem_of_mem_filter hp
  refine ⟨⟨h.core.win, ?_, fun p hp => h.core.aliveElim p (hsub p hp),
    fun p hp => h.core.elimHold p (hsub p hp),
    fun p hp => h.core.progLo p (hsub p hp),
    fun p hp => h.core.progHi p (hsub p hp),
    fun hph p hp => h.core.cdHold hph p (hsub p hp), h.core.elimNodup,
    fun e he p hp hid => h.core.elimReg e he p (hsub p hp) hid, h.core.finRound,
    fun f hf hfr p hp hid => h.core.finCur f hf hfr p (hsub p hp) hid,
    h.core.finNodup, h.core.lobbyLogs, h.core.lobbyTA,
    fun hph p hp => h.core.lobbyProg hph p (hsub p hp)⟩,
    fun p hp => h.finHold p (hsub p hp)⟩
  exact ((List.filter_sublist g.players).map Player.id).nodup h.core.ids

theorem inv_join (g : Game) (sid : Nat) (name : String) (h : Inv g) :
    Inv (stepGame g (Act.join sid name)) := by
  rw [stepGame_eq, applyAct_join]
  unfold joinGame
  split
  · exact h
  · split
    · exact h
    · split
      · exact h
      next h3 =>
        dsimp only
        split
        · exact h
        next h4 =>
          have hlob : g.phase = Phase.lobby := not_not.1 h3
          have hlogs := h.core.lobbyLogs hlob
          have hTA : g.tournamentActive = false := h.core.lobbyTA hlob
          by_cases hany : (g.players.any fun q => q.id == sid) = true
          · rw [if_pos hany]
            refine ⟨⟨h.core.win, ?_, ?_, ?_, ?_, ?_, ?_, h.core.elimNodup, ?_,
              h.core.finRound, ?_, h.core.finNodup, (fun _ => hlogs),
              (fun _ => hTA), ?_⟩, ?_⟩
            · rw [map_id_of_preserve _
                (fun x => by
                  split
                  next hc => exact hc.symm
                  next => rfl) g.players]
              exact h.core.ids
            · intro p' hp'
              rcases List.mem_map.1 hp' with ⟨r, hr, rfl⟩
              by_cases hc : r.id = sid
              · rw [if_pos hc]; rfl
              · rw [if_neg hc]; exact h.core.aliveElim r hr
            · intro p' hp'
              rcases List.mem_map.1 hp' with ⟨r, hr, rfl⟩
              by_cases hc : r.id = sid
              · rw [if_pos hc]; intro hE; exact nomatch hE
              · rw [if_neg hc]; exact h.core.elimHold r hr
            · intro p' hp'
              rcases List.mem_map.1 hp' with ⟨r, hr, rfl⟩
              by_cases hc : r.id = sid
              · rw [if_pos hc]; norm_num [createPlayer]
              · rw [if_neg hc]; exact h.core.progLo r hr
            · intro p' hp'
              rcases List.mem_map.1 hp' with ⟨r, hr, rfl⟩
              by_cases hc : r.id = sid
              · rw [if_pos hc]; norm_num [createPlayer]
              · rw [if_neg hc]; exact h.core.progHi r hr
            · intro hph
              rw [hlob] at hph
              exact nomatch hph
            · intro e he
              rw [hlogs.1] at he
              exact absurd he (List.not_mem_nil e)
            · intro f hf
              rw [hlogs.2] at hf
              exact absurd hf (List.not_mem_nil f)
            · intro _ p' hp'
              rcases List.mem_map.1 hp' with ⟨r, hr, rfl⟩
              by_cases hc : r.id = sid
              · rw [if_pos hc]; rfl
              · rw [if_neg hc]; exact h.core.lobbyProg hlob r hr
            · intro p' hp'
              rcases List.mem_map.1 hp' with ⟨r, hr, rfl⟩
              by_cases hc : r.id = sid
              · rw [if_pos hc]; intro hF; exact absurd rfl hF
              · rw [if_neg hc]; exact h.finHold r hr
          · rw [if_neg hany]
            have hfresh : ∀ q ∈ g.players, ¬ q.id = sid := by
              intro q hq hqid
              exact hany (List.any_eq_true.2 ⟨q, hq, by simp [hqid]⟩)
            refine ⟨⟨h.core.win, ?_, ?_, ?_, ?_, ?_, ?_, h.core.elimNodup, ?_,
              h.core.finRound, ?_, h.core.finNodup, (fun _ => hlogs),
              (fun _ => hTA), ?_⟩, ?_⟩
            · rw [List.map_append]
              rw [List.nodup_append]
              refine ⟨h.core.ids, by simp, ?_⟩
              intro x hx hx'
              simp only [List.map_cons, List.map_nil, List.mem_singleton] at hx'
              rcases List.mem_map.1 hx with ⟨q, hq, rfl⟩
              exact hfresh q hq hx'
            · intro p' hp'
              rcases List.mem_append.1 hp' with hold | hnew
              · exact h.core.aliveElim p' hold
              · rw [List.mem_singleton.1 hnew]; rfl
            · intro p' hp'
              rcases List.mem_append.1 hp' with hold | hnew
              · exact h.core.elimHold p' hold
              · rw [List.mem_singleton.1 hnew]; intro hE; exact nomatch hE
            · intro p' hp'
              rcases List.mem_append.1 hp' with hold | hnew
              · exact h.core.progLo p' hold
              · rw [List.mem_singleton.1 hnew]; norm_num [createPlayer]
            · intro p' hp'
              rcases List.mem_append.1 hp' with hold | hnew
              · exact h.core.progHi p' hold
              · rw [List.mem_singleton.1 hnew]; norm_num [createPlayer]
            · intro hph
              rw [hlob] at hph
              exact nomatch hph
            · intro e he
              rw [hlogs.1] at he
              exact absurd he (List.not_mem_nil e)
            · intro f hf
              rw [hlogs.2] at hf
              exact absurd hf (List.not_mem_nil f)
            · intro _ p' hp'
              rcases List.mem_append.1 hp' with hold | hnew
              · exact h.core.lobbyProg hlob p' hold
              · rw [List.mem_singleton.1 hnew]; rfl
            · intro p' hp'
              rcases List.mem_append.1 hp' with hold | hnew
              · exact h.finHold p' hold
              · rw [List.mem_singleton.1 hnew]; intro hF; exact absurd rfl hF

theorem inv_eliminatePlayer (g : Game) (sid : Nat) (h : Inv g)
    (hph : g.phase ≠ Phase.lobby)
    (halive : ∀ p, (g.players.find? fun q => q.id == sid) = some p →
      p.alive = true) :
    Inv (eliminatePlayer g sid) := by
  unfold eliminatePlayer
  cases hf : g.players.find? fun q => q.id == sid with
  | none => exact h
  | some p =>
    dsimp only
    have hpmem : p ∈ g.players := List.mem_of_find?_eq_some hf
    have hpid : p.id = sid := by simpa using List.find?_some hf
    have hpalive : p.alive = true := halive p hf
    have hpne : p.eliminated = false := by
      have h2 := h.core.aliveElim p hpmem
      rw [hpalive] at h2
      simpa using h2.symm
    have hid_not : p.id ∉ g.eliminationOrder.map LogEntry.id := by
      intro hmem
      rcases List.mem_map.1 hmem with ⟨e, he, heid⟩
      have h3 := h.core.elimReg e he p hpmem heid.symm
      rw [hpne] at h3
      exact nomatch h3
    refine ⟨⟨h.core.win, ?_, ?_, ?_, ?_, ?_, ?_, ?_, ?_, h.core.finRound, ?_,
      h.core.finNodup, (fun hl => absurd hl hph), (fun hl => h.core.lobbyTA hl),
      (fun hl => absurd hl hph)⟩, ?_⟩
    · rw [map_id_of_preserve _ (fun x => ite_kill_id g.round sid x) g.players]
      exact h.core.ids
    · intro p' hp'
      rcases List.mem_map.1 hp' with ⟨r, hr, rfl⟩
      by_cases hc : r.id = sid
      · rw [if_pos hc]; rfl
      · rw [if_neg hc]; exact h.core.aliveElim r hr
    · intro p' hp'
      rcases List.mem_map.1 hp' with ⟨r, hr, rfl⟩
      by_cases hc : r.id = sid
      · rw [if_pos hc]; intro _; rfl
      · rw [if_neg hc]; exact h.core.elimHold r hr
    · intro p' hp'
      rcases List.mem_map.1 hp' with ⟨r, hr, rfl⟩
      by_cases hc : r.id = sid
      · rw [if_pos hc]; exact h.core.progLo r hr
      · rw [if_neg hc]; exact h.core.progLo r hr
    · intro p' hp'
      rcases List.mem_map.1 hp' with ⟨r, hr, rfl⟩
      by_cases hc : r.id = sid
      · rw [if_pos hc]; exact h.core.progHi r hr
      · rw [if_neg hc]; exact h.core.progHi r hr
    · intro hph' p' hp'
      rcases List.mem_map.1 hp' with ⟨r, hr, rfl⟩
      by_cases hc : r.id = sid
      · rw [if_pos hc]; rfl
      · rw [if_neg hc]; exact h.core.cdHold hph' r hr
    · rw [List.map_append]
      rw [List.nodup_append]
      refine ⟨h.core.elimNodup, by simp, ?_⟩
      intro x hx hx'
      simp only [List.map_cons, List.map_nil, List.mem_singleton] at hx'
      rw [hx'] at hx
      exact hid_not hx
    · intro e he p' hp' hid
      rcases List.mem_map.1 hp' with ⟨r, hr, rfl⟩
      by_cases hc : r.id = sid
      · rw [if_pos hc]; rfl
      · rw [if_neg hc] at hid ⊢
        rcases List.mem_append.1 he with hold | hnew
        · exact h.core.elimReg e hold r hr hid
        · rw [List.mem_singleton.1 hnew] at hid
          rw [hpid] at hid
          exact absurd hid hc
    · intro f hf' hfr p' hp' hid
      rcases List.mem_map.1 hp' with ⟨r, hr, rfl⟩
      by_cases hc : r.id = sid
      · rw [if_pos hc] at hid ⊢
        exact h.core.finCur f hf' hfr r hr hid
      · rw [if_neg hc] at hid ⊢
        exact h.core.finCur f hf' hfr r hr hid
    · intro p' hp'
      rcases List.mem_map.1 hp' with ⟨r, hr, rfl⟩
      by_cases hc : r.id = sid
      · rw [if_pos hc]; intro _ hh; exact nomatch hh
      · rw [if_neg hc]; exact h.finHold r hr

theorem inv_holdStart (g : Game) (sid now : Nat) (h : Inv g) :
    Inv (stepGame g (Act.holdStartA sid now)) := by
  rw [stepGame_eq, applyAct_holdStart]
  unfold holdStart
  cases hf : g.players.find? fun q => q.id == sid with
  | none => exact h
  | some p =>
    dsimp only
    split
    · exact h
    next hguard =>
      push_neg at hguard
      obtain ⟨ha, he, hfin, hph⟩ := hguard
      have ha' : p.alive = true := by revert ha; cases p.alive <;> simp
      have he' : p.eliminated = false := by revert he; cases p.eliminated <;> simp
      have hph' : g.phase = Phase.playing := hph
      have hpmem : p ∈ g.players := List.mem_of_find?_eq_some hf
      have hpid : p.id = sid := by simpa using List.find?_some hf
      have hg1 : Inv { g with players := g.players.map fun q =>
          if q.id = sid then { q with holding := true } else q } := by
        refine ⟨⟨h.core.win, ?_, ?_, ?_, ?_, ?_, ?_, h.core.elimNodup, ?_,
          h.core.finRound, ?_, h.core.finNodup,
          (fun hl => absurd hl (by rw [hph']; intro hx; exact nomatch hx)),
          (fun hl => h.core.lobbyTA hl),
          (fun hl => absurd hl (by rw [hph']; intro hx; exact nomatch hx))⟩, ?_⟩
        · rw [map_id_of_preserve _ (fun x => ite_hold_id sid x) g.players]
          exact h.core.ids
        · intro p' hp'
          rcases List.mem_map.1 hp' with ⟨r, hr, rfl⟩
          by_cases hc : r.id = sid
          · rw [if_pos hc]; exact h.core.aliveElim r hr
          · rw [if_neg hc]; exact h.core.aliveElim r hr
        · intro p' hp'
          rcases List.mem_map.1 hp' with ⟨r, hr, rfl⟩
          by_cases hc : r.id = sid
          · rw [if_pos hc]
            intro hE
            have hrp : r = p :=
              List.inj_on_of_nodup_map h.core.ids hr hpmem (by rw [hc, hpid])
            rw [hrp] at hE
            rw [he'] at hE
            exact nomatch hE
          · rw [if_neg hc]; exact h.core.elimHold r hr
        · intro p' hp'
          rcases List.mem_map.1 hp' with ⟨r, hr, rfl⟩
          by_cases hc : r.id = sid
          · rw [if_pos hc]; exact h.core.progLo r hr
          · rw [if_neg hc]; exact h.core.progLo r hr
        · intro p' hp'
          rcases List.mem_map.1 hp' with ⟨r, hr, rfl⟩
          by_cases hc : r.id = sid
          · rw [if_pos hc]; exact h.core.progHi r hr
          · rw [if_neg hc]; exact h.core.progHi r hr
        · intro hc
          rw [hph'] at hc
          exact nomatch hc
        · intro e he'' p' hp' hid
          rcases List.mem_map.1 hp' with ⟨r, hr, rfl⟩
          by_cases hc : r.id = sid
          · rw [if_pos hc] at hid ⊢
            exact h.core.elimReg e he'' r hr hid
          · rw [if_neg hc] at hid ⊢
            exact h.core.elimReg e he'' r hr hid
        · intro f hf' hfr p' hp' hid
          rcases List.mem_map.1 hp' with ⟨r, hr, rfl⟩
          by_cases hc : r.id = sid
          · rw [if_pos hc] at hid ⊢
            exact h.core.finCur f hf' hfr r hr hid
          · rw [if_neg hc] at hid ⊢
            exact h.core.finCur f hf' hfr r hr hid
        · intro p' hp'
          rcases List.mem_map.1 hp' with ⟨r, hr, rfl⟩
          by_cases hc : r.id = sid
          · rw [if_pos hc]
            intro hF _
            have hrp : r = p :=
              List.inj_on_of_nodup_map h.core.ids hr hpmem (by rw [hc, hpid])
            rw [hrp] at hF
            exact absurd hfin hF
          · rw [if_neg hc]; exact h.finHold r hr
      split
      · have hfind1 : (({ g with players := g.players.map fun q =>
            if q.id = sid then { q with holding := true } else q } : Game).players.find?
              fun q => q.id == sid)
            = some { p with holding := true } := by
          dsimp only
          rw [find?_map_id _ (fun x => ite_hold_id sid x), hf]
          dsimp only [Option.map]
          rw [if_pos hpid]
        refine inv_tail (checkSoftlock_shape _ now) ?_
        refine inv_eliminatePlayer _ sid hg1 ?_ ?_
        · dsimp only
          rw [hph']
          intro hx
          exact nomatch hx
        · intro p' hp'
          rw [hfind1] at hp'
          injection hp' with hh
          rw [← hh]
          exact ha'
      · exact hg1

theorem inv_disconnect (g : Game) (sid now : Nat) (h : Inv g) :
    Inv (stepGame g (Act.disconnect sid now)) := by
  rw [stepGame_eq, applyAct_disconnect]
  unfold disconnectHandler
  cases hf : g.players.find? fun q => q.id == sid with
  | none => exact h
  | some p =>
    dsimp only
    split
    · dsimp only
      have hsub : ∀ q : Player, q ∈ g.players.filter (fun q => q.id != sid) →
          q ∈ g.players := fun q hq => List.mem_of_mem_filter hq
      refine ⟨⟨h.core.win, ?_, fun q hq => h.core.aliveElim q (hsub q hq),
        fun q hq => h.core.elimHold q (hsub q hq),
        fun q hq => h.core.progLo q (hsub q hq),
        fun q hq => h.core.progHi q (hsub q hq),
        fun hph q hq => h.core.cdHold hph q (hsub q hq), h.core.elimNodup,
        fun e he q hq hid => h.core.elimReg e he q (hsub q hq) hid,
        h.core.finRound,
        fun f hf' hfr q hq hid => h.core.finCur f hf' hfr q (hsub q hq) hid,
        h.core.finNodup, h.core.lobbyLogs, h.core.lobbyTA,
        fun hph q hq => h.core.lobbyProg hph q (hsub q hq)⟩,
        fun q hq => h.finHold q (hsub q hq)⟩
      exact ((List.filter_sublist g.players).map Player.id).nodup h.core.ids
    next hcond =>
      have hph : g.phase ≠ Phase.lobby := by
        intro hl
        exact hcond ⟨hl, h.core.lobbyTA hl⟩
      by_cases hal : p.alive = true
      · rw [if_pos hal]
        exact inv_tail (checkSoftlock_shape _ now)
          (inv_eliminatePlayer g sid h hph (fun p' hp' => by
            rw [hf] at hp'
            injection hp' with hh
            rw [← hh]
            exact hal))
      · rw [if_neg hal]
        exact inv_tail (checkSoftlock_shape g now) h

theorem inv_defaultWin (g : Game) (w : Player) (now : Nat) (hw : w ∈ g.players)
    (h : Inv g) :
    Inv (finalize { g with
      finishOrder := g.finishOrder ++ [LogEntry.mk w.id w.name (g.round + 1)],
      players := setFinished g.players w.id now,
      round := g.round + 1 }) := by
  refine ⟨⟨?_, ?_, ?_, ?_, ?_, ?_, ?_, ?_, ?_, ?_, ?_, ?_, ?_, ?_, ?_⟩, ?_⟩
  · rw [finalize_win]; exact h.core.win
  · rw [finalize_players]
    dsimp only
    rw [setFinished_id]
    exact h.core.ids
  · intro p' hp'
    rw [finalize_players] at hp'
    dsimp only at hp'
    rw [setFinished_eq_map] at hp'
    rcases List.mem_map.1 hp' with ⟨r, hr, rfl⟩
    rw [ite_fin_alive, ite_fin_elimF]
    exact h.core.aliveElim r hr
  · intro p' hp'
    rw [finalize_players] at hp'
    dsimp only at hp'
    rw [setFinished_eq_map] at hp'
    rcases List.mem_map.1 hp' with ⟨r, hr, rfl⟩
    rw [ite_fin_elimF, ite_fin_hold]
    exact h.core.elimHold r hr
  · intro p' hp'
    rw [finalize_players] at hp'
    dsimp only at hp'
    rw [setFinished_eq_map] at hp'
    rcases List.mem_map.1 hp' with ⟨r, hr, rfl⟩
    rw [ite_fin_prog]
    exact h.core.progLo r hr
  · intro p' hp'
    rw [finalize_players] at hp'
    dsimp only at hp'
    rw [setFinished_eq_map] at hp'
    rcases List.mem_map.1 hp' with ⟨r, hr, rfl⟩
    rw [ite_fin_prog]
    exact h.core.progHi r hr
  · intro hph
    rw [finalize_phase] at hph
    exact nomatch hph
  · rw [finalize_eliminationOrder]
    exact h.core.elimNodup
  · intro e he p' hp' hid
    rw [finalize_eliminationOrder] at he
    rw [finalize_players] at hp'
    dsimp only at hp' he
    rw [setFinished_eq_map] at hp'
    rcases List.mem_map.1 hp' with ⟨r, hr, rfl⟩
    rw [ite_fin_id] at hid
    rw [ite_fin_elimF]
    exact h.core.elimReg e he r hr hid
  · intro f hf'
    rw [finalize_finishOrder] at hf'
    rw [finalize_round]
    dsimp only at hf' ⊢
    rcases List.mem_append.1 hf' with hold | hnew
    · exact le_trans (h.core.finRound f hold) (Nat.le_succ _)
    · rw [List.mem_singleton.1 hnew]
  · intro f hf' hfr p' hp' hid
    rw [finalize_finishOrder] at hf'
    rw [finalize_round] at hfr
    rw [finalize_players] at hp'
    dsimp only at hf' hfr hp'
    rw [setFinished_eq_map] at hp'
    rcases List.mem_map.1 hp' with ⟨r, hr, rfl⟩
    rw [ite_fin_id] at hid
    by_cases hrw : r.id = w.id
    · rw [if_pos hrw]
      simp
    · rw [if_neg hrw]
      rcases List.mem_append.1 hf' with hold | hnew
      · have := h.core.finRound f hold
        omega
      · rw [List.mem_singleton.1 hnew] at hid
        exact absurd hid hrw
  · rw [finalize_finishOrder]
    dsimp only
    rw [List.map_append]
    rw [List.nodup_append]
    refine ⟨h.core.finNodup, by simp, ?_⟩
    intro x hx hx'
    simp only [List.map_cons, List.map_nil, List.mem_singleton] at hx'
    rcases List.mem_map.1 hx with ⟨f, hfm, rfl⟩
    have h2 : f.round = g.round + 1 := (Prod.ext_iff.1 hx').2
    have := h.core.finRound f hfm
    omega
  · intro hph
    rw [finalize_phase] at hph
    exact nomatch hph
  · intro hph
    rw [finalize_phase] at hph
    exact nomatch hph
  · intro hph
    rw [finalize_phase] at hph
    exact nomatch hph
  · exact finHold_finalize _

theorem inv_startGame (g : Game) (now : Nat) (h : Inv g) :
    Inv (stepGame g (Act.startGameA now)) := by
  rw [stepGame_eq, applyAct_startGame]
  unfold startGameHandler
  split
  case isFalse => exact h
  case isTrue hph =>
    split
    · exact h
    next w heq =>
      have hw : w ∈ g.players := by
        have : w ∈ alivePlayers g := by rw [heq]; exact List.mem_cons_self w []
        exact List.mem_of_mem_filter this
      dsimp only
      rw [endGame_fst]
      exact inv_defaultWin g w now hw h
    next =>
      unfold startGameFn
      split
      · exact h
      next =>
        dsimp only
        refine ⟨⟨h.core.win, ?_, ?_, ?_, ?_, ?_, ?_, h.core.elimNodup, ?_, ?_, ?_,
          h.core.finNodup, (fun hl => nomatch hl), (fun hl => nomatch hl),
          (fun hl => nomatch hl)⟩, ?_⟩
        · rw [map_id_of_preserve _ (fun x => by split <;> rfl) g.players]
          exact h.core.ids
        · intro p' hp'
          rcases List.mem_map.1 hp' with ⟨r, hr, rfl⟩
          by_cases hc : r.alive = true
          · rw [if_pos hc]; exact h.core.aliveElim r hr
          · rw [if_neg hc]; exact h.core.aliveElim r hr
        · intro p' hp'
          rcases List.mem_map.1 hp' with ⟨r, hr, rfl⟩
          by_cases hc : r.alive = true
          · rw [if_pos hc]; intro _; rfl
          · rw [if_neg hc]; exact h.core.elimHold r hr
        · intro p' hp'
          rcases List.mem_map.1 hp' with ⟨r, hr, rfl⟩
          by_cases hc : r.alive = true
          · rw [if_pos hc]
          · rw [if_neg hc]; exact h.core.progLo r hr
        · intro p' hp'
          rcases List.mem_map.1 hp' with ⟨r, hr, rfl⟩
          by_cases hc : r.alive = true
          · rw [if_pos hc]
            norm_num
          · rw [if_neg hc]; exact h.core.progHi r hr
        · intro _ p' hp'
          rcases List.mem_map.1 hp' with ⟨r, hr, rfl⟩
          by_cases hc : r.alive = true
          · rw [if_pos hc]
          · rw [if_neg hc]
            have hra : r.alive = false := by revert hc; cases r.alive <;> simp
            have hre : r.eliminated = true := by
              have h2 := h.core.aliveElim r hr
              rw [hra] at h2
              simpa using h2.symm
            exact h.core.elimHold r hr hre
        · intro e he p' hp' hid
          rcases List.mem_map.1 hp' with ⟨r, hr, rfl⟩
          by_cases hc : r.alive = true
          · rw [if_pos hc] at hid ⊢; exact h.core.elimReg e he r hr hid
          · rw [if_neg hc] at hid ⊢; exact h.core.elimReg e he r hr hid
        · intro f hf'
          exact le_trans (h.core.finRound f hf') (Nat.le_succ _)
        · intro f hf' hfr
          dsimp only at hfr
          have := h.core.finRound f hf'
          omega
        · intro p' hp'
          rcases List.mem_map.1 hp' with ⟨r, hr, rfl⟩
          by_cases hc : r.alive = true
          · rw [if_pos hc]
            intro hF
            exact absurd rfl hF
          · rw [if_neg hc]
            have hra : r.alive = false := by revert hc; cases r.alive <;> simp
            have hre : r.eliminated = true := by
              have h2 := h.core.aliveElim r hr
              rw [hra] at h2
              simpa using h2.symm
            intro _ hh
            rw [h.core.elimHold r hr hre] at hh
            exact nomatch hh

theorem inv_bulk (g : Game) (h : Inv g) (hph : g.phase = Phase.playing) :
    Inv (bulkEliminate g) := by
  have helim_sub : ∀ v ∈ bulkTargets g, v ∈ g.players ∧ v.alive = true := by
    intro v hv
    have hv' := List.mem_filter.1 hv
    refine ⟨hv'.1, ?_⟩
    have := hv'.2
    simp only [Bool.and_eq_true] at this
    exact this.1
  refine ⟨⟨h.core.win, ?_, ?_, ?_, ?_, ?_, ?_, ?_, ?_, h.core.finRound, ?_,
    h.core.finNodup,
    (fun hl => by rw [bulkEliminate] at hl; dsimp only at hl; rw [hph] at hl; exact nomatch hl),
    (fun hl => by rw [bulkEliminate] at hl; dsimp only at hl; rw [hph] at hl; exact nomatch hl),
    (fun hl => by rw [bulkEliminate] at hl; dsimp only at hl; rw [hph] at hl; exact nomatch hl)⟩, ?_⟩
  · rw [bulkEliminate_players,
      map_id_of_preserve _ (fun x => ite_elim_id g.round x) g.players]
    exact h.core.ids
  · intro p' hp'
    rw [bulkEliminate_players] at hp'
    rcases List.mem_map.1 hp' with ⟨r, hr, rfl⟩
    by_cases hc : (r.alive && r.holding) = true
    · rw [if_pos hc]; rfl
    · rw [if_neg hc]; exact h.core.aliveElim r hr
  · intro p' hp'
    rw [bulkEliminate_players] at hp'
    rcases List.mem_map.1 hp' with ⟨r, hr, rfl⟩
    by_cases hc : (r.alive && r.holding) = true
    · rw [if_pos hc]; intro _; rfl
    · rw [if_neg hc]; exact h.core.elimHold r hr
  · intro p' hp'
    rw [bulkEliminate_players] at hp'
    rcases List.mem_map.1 hp' with ⟨r, hr, rfl⟩
    by_cases hc : (r.alive && r.holding) = true
    · rw [if_pos hc]; exact h.core.progLo r hr
    · rw [if_neg hc]; exact h.core.progLo r hr
  · intro p' hp'
    rw [bulkEliminate_players] at hp'
    rcases List.mem_map.1 hp' with ⟨r, hr, rfl⟩
    by_cases hc : (r.alive && r.holding) = true
    · rw [if_pos hc]; exact h.core.progHi r hr
    · rw [if_neg hc]; exact h.core.progHi r hr
  · intro hc
    rw [bulkEliminate] at hc
    dsimp only at hc
    rw [hph] at hc
    exact nomatch hc
  · rw [bulkEliminate_elim, List.map_append, List.map_map]
    rw [List.nodup_append]
    refine ⟨h.core.elimNodup, ?_, ?_⟩
    · have : (LogEntry.id ∘ fun p : Player => LogEntry.mk p.id p.name g.round)
          = Player.id := rfl
      rw [this]
      exact (((List.filter_sublist g.players).map Player.id).nodup h.core.ids)
    · intro x hx hx'
      have : (LogEntry.id ∘ fun p : Player => LogEntry.mk p.id p.name g.round)
          = Player.id := rfl
      rw [this] at hx'
      rcases List.mem_map.1 hx' with ⟨v, hv, rfl⟩
      obtain ⟨hvmem, hvalive⟩ := helim_sub v hv
      have hvne : v.eliminated = false := by
        have h2 := h.core.aliveElim v hvmem
        rw [hvalive] at h2
        simpa using h2.symm
      rcases List.mem_map.1 hx with ⟨e, he, heid⟩
      have h3 := h.core.elimReg e he v hvmem heid.symm
      rw [hvne] at h3
      exact nomatch h3
  · intro e he p' hp' hid
    rw [bulkEliminate_elim] at he
    rw [bulkEliminate_players] at hp'
    rcases List.mem_map.1 hp' with ⟨r, hr, rfl⟩
    by_cases hc : (r.alive && r.holding) = true
    · rw [if_pos hc]; rfl
    · rw [if_neg hc] at hid ⊢
      rcases List.mem_append.1 he with hold | hnew
      · exact h.core.elimReg e hold r hr hid
      · rcases List.mem_map.1 hnew with ⟨v, hv, rfl⟩
        obtain ⟨hvmem, _⟩ := helim_sub v hv
        have hrv : r = v :=
          List.inj_on_of_nodup_map h.core.ids hr hvmem hid
        rw [hrv] at hc
        have := (List.mem_filter.1 hv).2
        exact absurd this hc
  · intro f hf' hfr p' hp' hid
    rw [bulkEliminate] at hf' hfr
    dsimp only at hf' hfr
    rw [bulkEliminate_players] at hp'
    rcases List.mem_map.1 hp' with ⟨r, hr, rfl⟩
    by_cases hc : (r.alive && r.holding) = true
    · rw [if_pos hc] at hid ⊢
      exact h.core.finCur f hf' hfr r hr hid
    · rw [if_neg hc] at hid ⊢
      exact h.core.finCur f hf' hfr r hr hid
  · intro p' hp'
    rw [bulkEliminate_players] at hp'
    rcases List.mem_map.1 hp' with ⟨r, hr, rfl⟩
    by_cases hc : (r.alive && r.holding) = true
    · rw [if_pos hc]
      intro _ hh
      exact nomatch hh
    · rw [if_neg hc]
      exact h.finHold r hr

theorem tickPlayer_id (r w : ℚ) (n : Nat) (p : Player) :
    (tickPlayer r w n p).id = p.id := by
  unfold tickPlayer
  split
  · split <;> rfl
  · rfl

theorem tickPlayer_alive (r w : ℚ) (n : Nat) (p : Player) :
    (tickPlayer r w n p).alive = p.alive := by
  unfold tickPlayer
  split
  · split <;> rfl
  · rfl

theorem tickPlayer_holding (r w : ℚ) (n : Nat) (p : Player) :
    (tickPlayer r w n p).holding = p.holding := by
  unfold tickPlayer
  split
  · split <;> rfl
  · rfl

theorem tickPlayer_eliminated (r w : ℚ) (n : Nat) (p : Player) :
    (tickPlayer r w n p).eliminated = p.eliminated := by
  unfold tickPlayer
  split
  · split <;> rfl
  · rfl

theorem tickPlayer_progress (r w : ℚ) (n : Nat) (p : Player) :
    (tickPlayer r w n p).progress
      = if (p.alive && p.holding && p.finishedAt.isNone) = true
          then min w (p.progress + r) else p.progress := by
  unfold tickPlayer
  split
  next hc => split <;> rfl
  next hc => rfl

theorem tickPlayer_fin (r w : ℚ) (n : Nat) (p : Player) :
    (tickPlayer r w n p).finishedAt
      = if ((p.alive && p.holding && p.finishedAt.isNone) = true
            ∧ w ≤ p.progress + r)
          then some n else p.finishedAt := by
  unfold tickPlayer
  split
  next hc =>
    split
    next hle => rw [if_pos ⟨hc, hle⟩]
    next hle => rw [if_neg (fun hx => hle hx.2)]
  next hc => rw [if_neg (fun hx => hc hx.1)]

theorem tickFinishers_mem (g : Game) (rate : ℚ) (v : Player)
    (hv : v ∈ tickFinishers g rate) :
    v ∈ g.players ∧ (v.alive && v.holding && v.finishedAt.isNone) = true
      ∧ g.progressToWin ≤ v.progress + rate := by
  have hv' := List.mem_filter.1 hv
  have h2 := hv'.2
  simp only [Bool.and_eq_true, decide_eq_true_eq] at h2
  refine ⟨hv'.1, ?_, h2.2⟩
  simp only [Bool.and_eq_true]
  exact h2.1

theorem checkForGameEnd_ends (g : Game) (now : Nat)
    (hne : (g.finishOrder.filter fun f => f.round == g.round) ≠ []
      ∨ alivePlayers g = []) :
    (checkForGameEnd g now).1.phase = Phase.gameOver := by
  unfold checkForGameEnd
  split
  · rw [endGame_fst, finalize_phase]
  next halive =>
    split
    · rw [endGame_fst, finalize_phase]
    next heq =>
      rcases hne with hn | hn
      · exact absurd heq hn
      · exact absurd hn halive

theorem inv_tick_g1 (g : Game) (now : Nat) (h : Inv g)
    (hph : g.phase = Phase.playing) :
    InvCore { g with
      players := g.players.map
        (tickPlayer (getCurrentDifficulty g).progressRate g.progressToWin now),
      finishOrder := g.finishOrder
        ++ (tickFinishers g (getCurrentDifficulty g).progressRate).map
            fun p => LogEntry.mk p.id p.name g.round } := by
  have hratepos : 0 < (getCurrentDifficulty g).progressRate := progressRate_pos _
  refine ⟨h.core.win, ?_, ?_, ?_, ?_, ?_, ?_, h.core.elimNodup, ?_, ?_, ?_, ?_,
    ?_, ?_, ?_⟩
  · rw [map_id_of_preserve _ (fun x => tickPlayer_id _ _ _ x) g.players]
    exact h.core.ids
  · intro p' hp'
    rcases List.mem_map.1 hp' with ⟨r, hr, rfl⟩
    rw [tickPlayer_alive, tickPlayer_eliminated]
    exact h.core.aliveElim r hr
  · intro p' hp'
    rcases List.mem_map.1 hp' with ⟨r, hr, rfl⟩
    rw [tickPlayer_eliminated, tickPlayer_holding]
    exact h.core.elimHold r hr
  · intro p' hp'
    rcases List.mem_map.1 hp' with ⟨r, hr, rfl⟩
    rw [tickPlayer_progress]
    split
    · refine le_min ?_ ?_
      · rw [h.core.win]; norm_num
      · exact add_nonneg (h.core.progLo r hr) (le_of_lt hratepos)
    · exact h.core.progLo r hr
  · intro p' hp'
    rcases List.mem_map.1 hp' with ⟨r, hr, rfl⟩
    rw [tickPlayer_progress]
    split
    · rw [h.core.win]
      exact min_le_left _ _
    · exact h.core.progHi r hr
  · intro hc
    have hc' : g.phase = Phase.countdown := hc
    rw [hph] at hc'
    exact nomatch hc'
  · intro e he p' hp' hid
    rcases List.mem_map.1 hp' with ⟨r, hr, rfl⟩
    rw [tickPlayer_id] at hid
    rw [tickPlayer_eliminated]
    exact h.core.elimReg e he r hr hid
  · intro f hf'
    show f.round ≤ g.round
    have hf'' : f ∈ g.finishOrder
        ++ (tickFinishers g (getCurrentDifficulty g).progressRate).map
            (fun p => LogEntry.mk p.id p.name g.round) := hf'
    rcases List.mem_append.1 hf'' with hold | hnew
    · exact h.core.finRound f hold
    · rcases List.mem_map.1 hnew with ⟨v, hv, rfl⟩
      exact le_refl _
  · intro f hf' hfr p' hp' hid
    have hfr' : f.round = g.round := hfr
    have hf'' : f ∈ g.finishOrder
        ++ (tickFinishers g (getCurrentDifficulty g).progressRate).map
            (fun p => LogEntry.mk p.id p.name g.round) := hf'
    rcases List.mem_map.1 hp' with ⟨r, hr, rfl⟩
    rw [tickPlayer_id] at hid
    rw [tickPlayer_fin]
    split
    · simp
    next hnc =>
      rcases List.mem_append.1 hf'' with hold | hnew
      · exact h.core.finCur f hold hfr' r hr hid
      · rcases List.mem_map.1 hnew with ⟨v, hv, rfl⟩
        obtain ⟨hvmem, hvb, hvle⟩ :=
          tickFinishers_mem g (getCurrentDifficulty g).progressRate v hv
        have hrv : r = v :=
          List.inj_on_of_nodup_map h.core.ids hr hvmem hid
        rw [hrv] at hnc
        exact absurd ⟨hvb, hvle⟩ hnc
  · show ((g.finishOrder
        ++ (tickFinishers g (getCurrentDifficulty g).progressRate).map
            (fun p => LogEntry.mk p.id p.name g.round)).map
              fun f => (f.id, f.round)).Nodup
    rw [List.map_append, List.nodup_append, List.map_map]
    have hcomp : ((fun f : LogEntry => (f.id, f.round))
          ∘ fun p : Player => LogEntry.mk p.id p.name g.round)
        = fun p : Player => (p.id, g.round) := rfl
    rw [hcomp]
    refine ⟨h.core.finNodup, ?_, ?_⟩
    · have : (fun p : Player => (p.id, g.round))
          = (fun i : Nat => (i, g.round)) ∘ Player.id := rfl
      rw [this, ← List.map_map]
      refine List.Nodup.map ?_
        (((List.filter_sublist g.players).map Player.id).nodup h.core.ids)
      intro a b hab
      exact (Prod.ext_iff.1 hab).1
    · intro x hx hx'
      rcases List.mem_map.1 hx' with ⟨v, hv, rfl⟩
      obtain ⟨hvmem, hvb, hvle⟩ :=
        tickFinishers_mem g (getCurrentDifficulty g).progressRate v hv
      rcases List.mem_map.1 hx with ⟨f, hfm, hfx⟩
      have h1 : f.id = v.id := (Prod.ext_iff.1 hfx).1
      have h2 : f.round = g.round := (Prod.ext_iff.1 hfx).2
      have h3 := h.core.finCur f hfm h2 v hvmem h1.symm
      simp only [Bool.and_eq_true] at hvb
      rw [Option.isNone_iff_eq_none.1 hvb.2] at h3
      exact h3 rfl
  · intro hl
    have hl' : g.phase = Phase.lobby := hl
    rw [hph] at hl'
    exact nomatch hl'
  · intro hl
    have hl' : g.phase = Phase.lobby := hl
    rw [hph] at hl'
    exact nomatch hl'
  · intro hl
    have hl' : g.phase = Phase.lobby := hl
    rw [hph] at hl'
    exact nomatch hl'

theorem inv_tick (g : Game) (now : Nat) (h : Inv g) :
    Inv (stepGame g (Act.tick now)) := by
  rw [stepGame_eq, applyAct_tick]
  unfold progressTick
  split
  case isFalse => exact h
  case isTrue hc =>
    dsimp only
    split
    case isTrue hfe =>
      refine ⟨inv_tick_g1 g now h hc.1, ?_⟩
      intro p' hp' hF hh
      rcases List.mem_map.1 hp' with ⟨r, hr, rfl⟩
      rw [tickPlayer_fin] at hF
      rw [tickPlayer_holding] at hh
      by_cases hcc : ((r.alive && r.holding && r.finishedAt.isNone) = true
          ∧ g.progressToWin ≤ r.progress + (getCurrentDifficulty g).progressRate)
      · exfalso
        have hmem : r ∈ tickFinishers g (getCurrentDifficulty g).progressRate := by
          apply List.mem_filter.2
          refine ⟨hr, ?_⟩
          simp only [Bool.and_eq_true, decide_eq_true_eq]
          have hb := hcc.1
          simp only [Bool.and_eq_true] at hb
          exact ⟨hb, hcc.2⟩
        rw [hfe] at hmem
        exact absurd hmem (List.not_mem_nil r)
      · rw [if_neg hcc] at hF
        exact h.finHold r hr hF hh
    case isFalse hfe =>
      refine ⟨invCore_tail (checkForGameEnd_shape _ now)
        (inv_tick_g1 g now h hc.1), ?_⟩
      intro p' hp' _ _
      apply checkForGameEnd_ends
      left
      show ((g.finishOrder
          ++ (tickFinishers g (getCurrentDifficulty g).progressRate).map
              (fun p => LogEntry.mk p.id p.name g.round)).filter
            fun f => f.round == g.round) ≠ []
      rw [List.filter_append]
      intro hcontra
      rcases List.append_eq_nil.1 hcontra with ⟨_, h2⟩
      have hself : (((tickFinishers g (getCurrentDifficulty g).progressRate).map
            (fun p => LogEntry.mk p.id p.name g.round)).filter
              fun f => f.round == g.round)
          = (tickFinishers g (getCurrentDifficulty g).progressRate).map
              (fun p => LogEntry.mk p.id p.name g.round) := by
        apply List.filter_eq_self.2
        intro e he
        rcases List.mem_map.1 he with ⟨v, hv, rfl⟩
        simp
      rw [hself] at h2
      exact hfe (List.map_eq_nil_iff.1 h2)

theorem inv_graceFire (g : Game) (now : Nat) (h : Inv g) :
    Inv (stepGame g (Act.graceFire now)) := by
  rw [stepGame_eq, applyAct_graceFire]
  unfold eliminateHolders
  split
  case isTrue hc =>
    dsimp only
    exact inv_tail (afterElimCheck_shape _ now) (inv_bulk g h hc.1)
  case isFalse => exact h

theorem inv_init : Inv initGame :=
  ⟨⟨rfl, List.nodup_nil, (by simp [initGame]), (by simp [initGame]),
    (by simp [initGame]), (by simp [initGame]), (fun h => nomatch h),
    List.nodup_nil, (by simp [initGame]), (by simp [initGame]),
    (by simp [initGame]), List.nodup_nil, (fun _ => ⟨rfl, rfl⟩),
    (fun _ => rfl), (fun _ => by simp [initGame])⟩,
    (fun p hp => absurd hp (List.not_mem_nil p))⟩

/-- Every reachable state satisfies the inductive invariant. -/
theorem reachable_inv (g : Game) (hg : Reachable g) : Inv g := by
  induction hg with
  | init => exact inv_init
  | step a hg ih =>
    cases a with
    | join sid name => exact inv_join _ sid name ih
    | holdStartA sid now => exact inv_holdStart _ sid now ih
    | holdEndA sid => exact inv_holdEnd _ sid ih
    | startGameA now => exact inv_startGame _ now ih
    | countdownFinishA now => exact inv_countdownFinish _ now ih
    | lightGreen now => exact inv_lightGreen _ now ih
    | lightRed => exact inv_lightRed _ ih
    | graceFire now => exact inv_graceFire _ now ih
    | tick now => exact inv_tick _ now ih
    | resetA => exact inv_reset _ ih
    | kick pid => exact inv_kick _ pid ih
    | disconnect sid now => exact inv_disconnect _ sid now ih

/-! ### C4: log discipline -/

/-- C4 counterexample: in the reachable state `cexB3` (one player wins by
default twice in a row, then disconnects during `gameOver`), player id 0
appears twice in `finishOrder` and also appears in both logs — so neither
"at most once in finishOrder" nor "never in both" holds on the code. -/
theorem logs_claim_cex :
    Reachable cexB3
    ∧ (cexB3.finishOrder.map LogEntry.id).count 0 = 2
    ∧ 0 ∈ cexB3.finishOrder.map LogEntry.id
    ∧ 0 ∈ cexB3.eliminationOrder.map LogEntry.id := by
  refine ⟨?_, by decide, by decide, by decide⟩
  exact Reachable.step _ (Reachable.step _ (Reachable.step _
    (Reachable.step _ Reachable.init)))

/-- C4 (amended): in every reachable state each player id occurs at most
once in `eliminationOrder`, and at most once in `finishOrder` **per
round** (the `(id, round)` pairs of the finish log are duplicate-free);
the two logs need not be disjoint and a player can appear in
`finishOrder` once per round across rounds. -/
theorem logs_discipline (g : Game) (hg : Reachable g) :
    (g.eliminationOrder.map LogEntry.id).Nodup
    ∧ (g.finishOrder.map fun f => (f.id, f.round)).Nodup :=
  ⟨(reachable_inv g hg).core.elimNodup, (reachable_inv g hg).core.finNodup⟩

theorem logs_discipline_witness :
    Reachable cexA2
    ∧ ((cexA2.eliminationOrder.map LogEntry.id).Nodup
       ∧ (cexA2.finishOrder.map fun f => (f.id, f.round)).Nodup) :=
  ⟨Reachable.step _ (Reachable.step _ Reachable.init),
   logs_discipline cexA2 (Reachable.step _ (Reachable.step _ Reachable.init))⟩

/-! ### C5: finishers and elimination -/

/-- C5 counterexample: in the reachable state `cexA3` (a default winner
disconnects while the session is in `gameOver`), the finisher is marked
dead: the disconnect handler eliminates any alive player, finisher or
not, so "finishedAt ≠ null ⇒ alive" fails on a reachable state. -/
theorem finisherAlive_claim_cex :
    Reachable cexA3
    ∧ ∃ p ∈ cexA3.players, p.finishedAt ≠ none ∧ p.alive = false := by
  refine ⟨?_, by decide⟩
  exact Reachable.step _ (Reachable.step _ (Reachable.step _ Reachable.init))

theorem finisherAlive_tail {now : Nat} {g g' : Game} (hs : TailShape now g g')
    (hn : (g.players.map Player.id).Nodup) (hfa : FinisherAlive g) :
    FinisherAlive g' := by
  rcases hs with rfl | rfl | ⟨w, hw, ha, hf, rfl⟩
  · exact hfa
  · intro p hp
    rw [finalize_players] at hp
    exact hfa p hp
  · intro p hp
    rw [finalize_players, pushFinish_players, setFinished_eq_map] at hp
    rcases List.mem_map.1 hp with ⟨r, hr, rfl⟩
    by_cases hc : r.id = w.id
    · rw [if_pos hc]
      intro _
      have hrw : r = w := List.inj_on_of_nodup_map hn hr hw hc
      rw [hrw]
      exact ha
    · rw [if_neg hc]
      exact hfa r hr

theorem finisherAlive_eliminatePlayer (g : Game) (sid : Nat)
    (hn : (g.players.map Player.id).Nodup) (hfa : FinisherAlive g)
    (hfin : ∀ p, (g.players.find? fun q => q.id == sid) = some p →
      p.finishedAt = none) :
    FinisherAlive (eliminatePlayer g sid) := by
  unfold eliminatePlayer
  cases hf : g.players.find? fun q => q.id == sid with
  | none => exact hfa
  | some p =>
    dsimp only
    intro p' hp'
    rcases List.mem_map.1 hp' with ⟨r, hr, rfl⟩
    by_cases hc : r.id = sid
    · rw [if_pos hc]
      intro hF
      have hpid : p.id = sid := by simpa using List.find?_some hf
      have hrp : r = p := List.inj_on_of_nodup_map hn hr
        (List.mem_of_find?_eq_some hf) (by rw [hc, hpid])
      have hrn : r.finishedAt = none := by rw [hrp]; exact hfin p hf
      exact absurd hrn hF
    · rw [if_neg hc]
      exact hfa r hr

theorem eliminatePlayer_ids (g : Game) (sid : Nat) :
    (eliminatePlayer g sid).players.map Player.id = g.players.map Player.id := by
  unfold eliminatePlayer
  cases hf : g.players.find? fun q => q.id == sid with
  | none => rfl
  | some p =>
    dsimp only
    exact map_id_of_preserve _ (fun x => ite_kill_id g.round sid x) g.players

theorem finisherAlive_step (g : Game) (a : Act) (hI : Inv g)
    (hnd : a.isDisconnect = false) (hfa : FinisherAlive g) :
    FinisherAlive (stepGame g a) := by
  cases a with
  | disconnect sid now => exact nomatch hnd
  | resetA =>
    rw [stepGame_eq, applyAct_reset]
    intro p hp
    exact absurd hp (List.not_mem_nil p)
  | kick pid =>
    rw [stepGame_eq, applyAct_kick]
    intro p hp
    exact hfa p (List.mem_of_mem_filter hp)
  | lightRed =>
    rw [stepGame_eq, applyAct_lightRed]
    unfold switchToRed
    split
    · exact hfa
    · exact hfa
  | lightGreen now =>
    rw [stepGame_eq, applyAct_lightGreen]
    unfold switchToGreen
    split
    · exact hfa
    · split
      · exact finisherAlive_tail (checkForGameEnd_shape g now) hI.core.ids hfa
      · exact hfa
  | countdownFinishA now =>
    rw [stepGame_eq, applyAct_countdownFinish]
    unfold countdownFinish
    split
    · unfold switchToGreen
      split
      · exact hfa
      · split
        · exact finisherAlive_tail (checkForGameEnd_shape _ now) hI.core.ids hfa
        · exact hfa
    · exact hfa
  | holdEndA sid =>
    rw [stepGame_eq, applyAct_holdEnd]
    unfold holdEnd
    cases hf : g.players.find? fun q => q.id == sid with
    | none => exact hfa
    | some p =>
      dsimp only
      intro p' hp'
      rcases List.mem_map.1 hp' with ⟨r, hr, rfl⟩
      by_cases hc : r.id = sid
      · rw [if_pos hc]; exact hfa r hr
      · rw [if_neg hc]; exact hfa r hr
  | join sid name =>
    rw [stepGame_eq, applyAct_join]
    unfold joinGame
    split
    · exact hfa
    · split
      · exact hfa
      · split
        · exact hfa
        next =>
          dsimp only
          split
          · exact hfa
          next =>
            by_cases hany : (g.players.any fun q => q.id == sid) = true
            · rw [if_pos hany]
              intro p' hp'
              rcases List.mem_map.1 hp' with ⟨r, hr, rfl⟩
              by_cases hc : r.id = sid
              · rw [if_pos hc]
                intro hF
                exact absurd rfl hF
              · rw [if_neg hc]
                exact hfa r hr
            · rw [if_neg hany]
              intro p' hp'
              rcases List.mem_append.1 hp' with hold | hnew
              · exact hfa p' hold
              · rw [List.mem_singleton.1 hnew]
                intro hF
                exact absurd rfl hF
  | holdStartA sid now =>
    rw [stepGame_eq, applyAct_holdStart]
    unfold holdStart
    cases hf : g.players.find? fun q => q.id == sid with
    | none => exact hfa
    | some p =>
      dsimp only
      split
      · exact hfa
      next hguard =>
        push_neg at hguard
        obtain ⟨ha, he, hfin, hph⟩ := hguard
        have hpid : p.id = sid := by simpa using List.find?_some hf
        have hfa1 : FinisherAlive { g with players := g.players.map fun q =>
            if q.id = sid then { q with holding := true } else q } := by
          intro p' hp'
          rcases List.mem_map.1 hp' with ⟨r, hr, rfl⟩
          by_cases hc : r.id = sid
          · rw [if_pos hc]; exact hfa r hr
          · rw [if_neg hc]; exact hfa r hr
        have hn1 : (({ g with players := g.players.map fun q =>
            if q.id = sid then { q with holding := true } else q } : Game).players.map
              Player.id).Nodup := by
          dsimp only
          rw [map_id_of_preserve _ (fun x => ite_hold_id sid x) g.players]
          exact hI.core.ids
        split
        · refine finisherAlive_tail (checkSoftlock_shape _ now) ?_ ?_
          · rw [eliminatePlayer_ids]
            exact hn1
          · refine finisherAlive_eliminatePlayer _ sid hn1 hfa1 ?_
            intro p' hp'
            dsimp only at hp'
            rw [find?_map_id _ (fun x => ite_hold_id sid x), hf] at hp'
            dsimp only [Option.map] at hp'
            rw [if_pos hpid] at hp'
            injection hp' with hh
            rw [← hh]
            exact hfin
        · exact hfa1
  | startGameA now =>
    rw [stepGame_eq, applyAct_startGame]
    unfold startGameHandler
    split
    · split
      · exact hfa
      next w heq =>
        have hwal : w ∈ alivePlayers g := by
          rw [heq]; exact List.mem_cons_self w []
        have hw' := List.mem_filter.1 hwal
        dsimp only
        rw [endGame_fst]
        intro p' hp'
        rw [finalize_players] at hp'
        dsimp only at hp'
        rw [setFinished_eq_map] at hp'
        rcases List.mem_map.1 hp' with ⟨r, hr, rfl⟩
        by_cases hc : r.id = w.id
        · rw [if_pos hc]
          intro _
          have hrw : r = w := List.inj_on_of_nodup_map hI.core.ids hr hw'.1 hc
          rw [hrw]
          exact hw'.2
        · rw [if_neg hc]
          exact hfa r hr
      next =>
        unfold startGameFn
        split
        · exact hfa
        · dsimp only
          intro p' hp'
          rcases List.mem_map.1 hp' with ⟨r, hr, rfl⟩
          by_cases hc : r.alive = true
          · rw [if_pos hc]
            intro hF
            exact absurd rfl hF
          · rw [if_neg hc]
            exact hfa r hr
    · exact hfa
  | graceFire now =>
    rw [stepGame_eq, applyAct_graceFire]
    unfold eliminateHolders
    split
    next hcond =>
      dsimp only
      have hfaB : FinisherAlive (bulkEliminate g) := by
        intro p' hp'
        rw [bulkEliminate_players] at hp'
        rcases List.mem_map.1 hp' with ⟨r, hr, rfl⟩
        by_cases hc : (r.alive && r.holding) = true
        · rw [if_pos hc]
          intro hF
          have hrh : r.holding = true := by
            simp only [Bool.and_eq_true] at hc
            exact hc.2
          have hgo := hI.finHold r hr hF hrh
          rw [hcond.1] at hgo
          exact nomatch hgo
        · rw [if_neg hc]
          exact hfa r hr
      have hnB : ((bulkEliminate g).players.map Player.id).Nodup := by
        rw [bulkEliminate_players,
          map_id_of_preserve _ (fun x => ite_elim_id g.round x) g.players]
        exact hI.core.ids
      exact finisherAlive_tail (afterElimCheck_shape _ now) hnB hfaB
    · exact hfa
  | tick now =>
    rw [stepGame_eq, applyAct_tick]
    unfold progressTick
    split
    next hcond =>
      dsimp only
      have hfaT : FinisherAlive { g with
          players := g.players.map
            (tickPlayer (getCurrentDifficulty g).progressRate g.progressToWin now),
          finishOrder := g.finishOrder
            ++ (tickFinishers g (getCurrentDifficulty g).progressRate).map
                fun p => LogEntry.mk p.id p.name g.round } := by
        intro p' hp'
        rcases List.mem_map.1 hp' with ⟨r, hr, rfl⟩
        rw [tickPlayer_fin, tickPlayer_alive]
        split
        next hcc =>
          intro _
          have := hcc.1
          simp only [Bool.and_eq_true] at this
          exact this.1.1
        next =>
          exact hfa r hr
      have hnT : (({ g with
          players := g.players.map
            (tickPlayer (getCurrentDifficulty g).progressRate g.progressToWin now),
          finishOrder := g.finishOrder
            ++ (tickFinishers g (getCurrentDifficulty g).progressRate).map
                fun p => LogEntry.mk p.id p.name g.round } : Game).players.map
            Player.id).Nodup := by
        dsimp only
        rw [map_id_of_preserve _ (fun x => tickPlayer_id _ _ _ x) g.players]
        exact hI.core.ids
      split
      · exact hfaT
      · exact finisherAlive_tail (checkForGameEnd_shape _ now) hnT hfaT
    · exact hfa

/-- C5 (amended): on every reachable state, every action **except a
disconnect** preserves the property that each registered finisher
(`finishedAt ≠ null`) is alive; the disconnect handler is the one
operation that marks an alive finisher eliminated (see the
counterexample). -/
theorem finisherAlive_preserved (g : Game) (a : Act) (hg : Reachable g)
    (hnd : a.isDisconnect = false) (hfa : FinisherAlive g) :
    FinisherAlive (stepGame g a) :=
  finisherAlive_step g a (reachable_inv g hg) hnd hfa

theorem finisherAlive_preserved_witness :
    (Reachable cexA1 ∧ (Act.startGameA 5).isDisconnect = false
      ∧ FinisherAlive cexA1)
    ∧ FinisherAlive (stepGame cexA1 (Act.startGameA 5)) :=
  ⟨⟨Reachable.step _ Reachable.init, by decide,
    by unfold FinisherAlive; decide⟩,
   finisherAlive_preserved cexA1 (Act.startGameA 5)
     (Reachable.step _ Reachable.init) (by decide)
     (by unfold FinisherAlive; decide)⟩

theorem ite_unhold_id (sid : Nat) (x : Player) :
    ((if x.id = sid then { x with holding := false } else x) : Player).id
      = x.id := by
  split <;> rfl

theorem mono_of_map (g : Game) (hn : (g.players.map Player.id).Nodup)
    (f : Player → Player) (hfid : ∀ x, (f x).id = x.id)
    (hmono : ∀ x ∈ g.players, x.progress ≤ (f x).progress)
    {l : List Player} (hl : l = g.players.map f) :
    ∀ p ∈ g.players, ∀ q ∈ l, q.id = p.id → p.progress ≤ q.progress := by
  intro p hp q hq hid
  rw [hl] at hq
  rw [mem_map_of_id hn f hfid hp hq hid]
  exact hmono p hp

theorem mono_of_mem (g : Game) (hn : (g.players.map Player.id).Nodup)
    {l : List Player} (hl : ∀ q ∈ l, q ∈ g.players) :
    ∀ p ∈ g.players, ∀ q ∈ l, q.id = p.id → p.progress ≤ q.progress := by
  intro p hp q hq hid
  rw [List.inj_on_of_nodup_map hn (hl q hq) hp hid]

theorem mono_of_tail (g X : Game) (now : Nat)
    (hn : (g.players.map Player.id).Nodup)
    (f : Player → Player) (hfid : ∀ x, (f x).id = x.id)
    (hmono : ∀ x ∈ g.players, x.progress ≤ (f x).progress)
    (hX : X.players = g.players.map f) {g' : Game} (hs : TailShape now X g') :
    ∀ p ∈ g.players, ∀ q ∈ g'.players, q.id = p.id → p.progress ≤ q.progress := by
  rcases hs.players_eq with hpe | ⟨pid, hpe⟩
  · exact mono_of_map g hn f hfid hmono (by rw [hpe, hX])
  · refine mono_of_map g hn
      ((fun x => if x.id = pid then { x with finishedAt := some now } else x) ∘ f)
      ?_ ?_ (by rw [hpe, hX, setFinished_eq_map, List.map_map])
    · intro x
      rw [Function.comp_apply, ite_fin_id, hfid]
    · intro x hx
      rw [Function.comp_apply, ite_fin_prog]
      exact hmono x hx

theorem eliminatePlayer_players_cases (g : Game) (sid : Nat) :
    (eliminatePlayer g sid).players = g.players
    ∨ ∃ rr, (eliminatePlayer g sid).players
        = g.players.map fun q => if q.id = sid then elimMark rr q else q := by
  unfold eliminatePlayer
  cases hf : g.players.find? fun q => q.id == sid with
  | none => left; rfl
  | some p => right; exact ⟨g.round, rfl⟩

theorem mono_step (g : Game) (a : Act) (hI : Inv g)
    (ha : a.isStartGameA = false) :
    ∀ p ∈ g.players, ∀ q ∈ (stepGame g a).players, q.id = p.id →
      p.progress ≤ q.progress := by
  cases a with
  | startGameA now => exact nomatch ha
  | resetA =>
    rw [stepGame_eq, applyAct_reset]
    intro p hp q hq hid
    exact absurd hq (List.not_mem_nil q)
  | kick pid =>
    rw [stepGame_eq, applyAct_kick]
    exact mono_of_mem g hI.core.ids (fun q hq => List.mem_of_mem_filter hq)
  | lightRed =>
    rw [stepGame_eq, applyAct_lightRed]
    unfold switchToRed
    split
    · exact mono_of_mem g hI.core.ids (fun q hq => hq)
    · exact mono_of_mem g hI.core.ids (fun q hq => hq)
  | lightGreen now =>
    rw [stepGame_eq, applyAct_lightGreen]
    unfold switchToGreen
    split
    · exact mono_of_mem g hI.core.ids (fun q hq => hq)
    · split
      · exact mono_of_tail g g now hI.core.ids id (fun x => rfl)
          (fun x hx => le_refl _) (List.map_id g.players).symm
          (checkForGameEnd_shape g now)
      · exact mono_of_mem g hI.core.ids (fun q hq => hq)
  | countdownFinishA now =>
    rw [stepGame_eq, applyAct_countdownFinish]
    unfold countdownFinish
    split
    · unfold switchToGreen
      split
      · exact mono_of_mem g hI.core.ids (fun q hq => hq)
      · split
        · exact mono_of_tail g { g with phase := Phase.playing } now hI.core.ids
            id (fun x => rfl) (fun x hx => le_refl _)
            (List.map_id g.players).symm (checkForGameEnd_shape _ now)
        · exact mono_of_mem g hI.core.ids (fun q hq => hq)
    · exact mono_of_mem g hI.core.ids (fun q hq => hq)
  | holdEndA sid =>
    rw [stepGame_eq, applyAct_holdEnd]
    unfold holdEnd
    cases hf : g.players.find? fun q => q.id == sid with
    | none => exact mono_of_mem g hI.core.ids (fun q hq => hq)
    | some p =>
      dsimp only
      refine mono_of_map g hI.core.ids _ (fun x => ite_unhold_id sid x) ?_ rfl
      intro x hx
      by_cases hc : x.id = sid <;> simp [hc]
  | join sid name =>
    rw [stepGame_eq, applyAct_join]
    unfold joinGame
    split
    · exact mono_of_mem g hI.core.ids (fun q hq => hq)
    · split
      · exact mono_of_mem g hI.core.ids (fun q hq => hq)
      · split
        · exact mono_of_mem g hI.core.ids (fun q hq => hq)
        next h3 =>
          have hlob : g.phase = Phase.lobby := not_not.1 h3
          dsimp only
          split
          · exact mono_of_mem g hI.core.ids (fun q hq => hq)
          next =>
            by_cases hany : (g.players.any fun q => q.id == sid) = true
            · rw [if_pos hany]
              refine mono_of_map g hI.core.ids _ ?_ ?_ rfl
              · intro x
                split
                next hc => exact hc.symm
                next => rfl
              · intro x hx
                by_cases hc : x.id = sid <;>
                  simp [hc, createPlayer, hI.core.lobbyProg hlob x hx]
            · rw [if_neg hany]
              have hfresh : ∀ x ∈ g.players, ¬ x.id = sid := by
                intro x hx hxid
                exact hany (List.any_eq_true.2 ⟨x, hx, by simp [hxid]⟩)
              intro p hp q hq hid
              rcases List.mem_append.1 hq with hold | hnew
              · rw [List.inj_on_of_nodup_map hI.core.ids hold hp hid]
              · rw [List.mem_singleton.1 hnew] at hid
                exact absurd hid.symm (hfresh p hp)
  | holdStartA sid now =>
    rw [stepGame_eq, applyAct_holdStart]
    unfold holdStart
    cases hf : g.players.find? fun q => q.id == sid with
    | none => exact mono_of_mem g hI.core.ids (fun q hq => hq)
    | some p =>
      dsimp only
      split
      · exact mono_of_mem g hI.core.ids (fun q hq => hq)
      next =>
        split
        · rcases eliminatePlayer_players_cases
            { g with
              players := g.players.map fun q =>
                if q.id = sid then { q with holding := true } else q } sid
            with hX | hXE
          · refine mono_of_tail g _ now hI.core.ids
              (fun q => if q.id = sid then { q with holding := true } else q)
              (fun x => ite_hold_id sid x) ?_ (by rw [hX])
              (checkSoftlock_shape _ now)
            intro x hx
            by_cases hc : x.id = sid <;> simp [hc]
          · obtain ⟨rr, hX⟩ := hXE
            refine mono_of_tail g _ now hI.core.ids
              ((fun q => if q.id = sid then elimMark rr q else q)
                ∘ fun q => if q.id = sid then { q with holding := true } else q)
              ?_ ?_ ?_ (checkSoftlock_shape _ now)
            · intro x
              rw [Function.comp_apply, ite_kill_id, ite_hold_id]
            · intro x hx
              by_cases hc : x.id = sid <;> simp [hc, elimMark]
            · rw [hX]
              dsimp only
              rw [List.map_map]
        · refine mono_of_map g hI.core.ids _ (fun x => ite_hold_id sid x) ?_ rfl
          intro x hx
          by_cases hc : x.id = sid <;> simp [hc]
  | graceFire now =>
    rw [stepGame_eq, applyAct_graceFire]
    unfold eliminateHolders
    split
    next hcond =>
      dsimp only
      refine mono_of_tail g (bulkEliminate g) now hI.core.ids
        (fun x => if x.alive && x.holding then elimMark g.round x else x)
        (fun x => ite_elim_id g.round x) ?_ (bulkEliminate_players g)
        (afterElimCheck_shape _ now)
      intro x hx
      by_cases hc : (x.alive && x.holding) = true <;> simp [hc, elimMark]
    · exact mono_of_mem g hI.core.ids (fun q hq => hq)
  | tick now =>
    rw [stepGame_eq, applyAct_tick]
    unfold progressTick
    split
    next hcond =>
      dsimp only
      have hmonoT : ∀ x ∈ g.players, x.progress
          ≤ (tickPlayer (getCurrentDifficulty g).progressRate
              g.progressToWin now x).progress := by
        intro x hx
        rw [tickPlayer_progress]
        split
        · refine le_min ?_ ?_
          · rw [hI.core.win]
            exact hI.core.progHi x hx
          · exact le_add_of_nonneg_right (le_of_lt (progressRate_pos _))
        · exact le_refl _
      split
      · exact mono_of_map g hI.core.ids _
          (fun x => tickPlayer_id _ _ _ x) hmonoT rfl
      · exact mono_of_tail g _ now hI.core.ids _
          (fun x => tickPlayer_id _ _ _ x) hmonoT rfl
          (checkForGameEnd_shape _ now)
    · exact mono_of_mem g hI.core.ids (fun q hq => hq)
  | disconnect sid now =>
    rw [stepGame_eq, applyAct_disconnect]
    unfold disconnectHandler
    cases hf : g.players.find? fun q => q.id == sid with
    | none => exact mono_of_mem g hI.core.ids (fun q hq => hq)
    | some p =>
      dsimp only
      split
      · exact mono_of_mem g hI.core.ids (fun q hq => List.mem_of_mem_filter hq)
      · by_cases hal : p.alive = true
        · rw [if_pos hal]
          rcases eliminatePlayer_players_cases g sid with hX | hXE
          · exact mono_of_tail g _ now hI.core.ids id (fun x => rfl)
              (fun x hx => le_refl _) (by rw [hX, List.map_id])
              (checkSoftlock_shape _ now)
          · obtain ⟨rr, hX⟩ := hXE
            refine mono_of_tail g _ now hI.core.ids
              (fun q => if q.id = sid then elimMark rr q else q)
              (fun x => ite_kill_id rr sid x) ?_ (by rw [hX])
              (checkSoftlock_shape _ now)
            intro x hx
            by_cases hc : x.id = sid <;> simp [hc, elimMark]
        · rw [if_neg hal]
          exact mono_of_tail g g now hI.core.ids id (fun x => rfl)
            (fun x hx => le_refl _) (List.map_id g.players).symm
            (checkSoftlock_shape g now)

/-- C6: in every reachable state all progress values lie in
`[0, progressToWin]` with `progressToWin = 100`; progress is
non-decreasing under every action except the `startGame` round reset; and
a green tick while `playing` adds exactly `progressRate` to every alive,
holding, unfinished player, clamped at `progressToWin`. -/
theorem progress_spec (g : Game) (hg : Reachable g) :
    (∀ p ∈ g.players, 0 ≤ p.progress ∧ p.progress ≤ g.progressToWin)
    ∧ g.progressToWin = 100
    ∧ (∀ a : Act, a.isStartGameA = false → ∀ p ∈ g.players,
        ∀ q ∈ (stepGame g a).players, q.id = p.id → p.progress ≤ q.progress)
    ∧ (∀ now : Nat, g.phase = Phase.playing → g.light = Light.green →
        ∀ p ∈ g.players, (p.alive && p.holding && p.finishedAt.isNone) = true →
          ∀ q ∈ (stepGame g (Act.tick now)).players, q.id = p.id →
            q.progress = min g.progressToWin
              (p.progress + (getCurrentDifficulty g).progressRate)) := by
  have hI := reachable_inv g hg
  refine ⟨?_, hI.core.win, ?_, ?_⟩
  · intro p hp
    refine ⟨hI.core.progLo p hp, ?_⟩
    rw [hI.core.win]
    exact hI.core.progHi p hp
  · intro a ha
    exact mono_step g a hI ha
  · intro now hph hl p hp hpb q hq hid
    rw [stepGame_eq, applyAct_tick] at hq
    unfold progressTick at hq
    rw [if_pos ⟨hph, hl⟩] at hq
    dsimp only at hq
    have hqprog : ∀ f : Player → Player, (∀ x, (f x).id = x.id) →
        (∀ x, (f x).progress
          = (tickPlayer (getCurrentDifficulty g).progressRate
              g.progressToWin now x).progress) →
        q ∈ g.players.map f →
        q.progress = min g.progressToWin
          (p.progress + (getCurrentDifficulty g).progressRate) := by
      intro f hfid hfprog hq'
      rw [mem_map_of_id hI.core.ids f hfid hp hq' hid, hfprog,
        tickPlayer_progress, if_pos hpb]
    split at hq
    · exact hqprog _ (fun x => tickPlayer_id _ _ _ x) (fun x => rfl) hq
    · rcases (checkForGameEnd_shape _ now).players_eq with hpe | ⟨pid, hpe⟩
      · rw [hpe] at hq
        exact hqprog _ (fun x => tickPlayer_id _ _ _ x) (fun x => rfl) hq
      · rw [hpe] at hq
        dsimp only at hq
        rw [setFinished_eq_map, List.map_map] at hq
        refine hqprog _ ?_ ?_ hq
        · intro x
          rw [Function.comp_apply, ite_fin_id, tickPlayer_id]
        · intro x
          rw [Function.comp_apply, ite_fin_prog]

theorem progress_spec_witness :
    Reachable cexL5
    ∧ ((∀ p ∈ cexL5.players, 0 ≤ p.progress ∧ p.progress ≤ cexL5.progressToWin)
    ∧ cexL5.progressToWin = 100
    ∧ (∀ a : Act, a.isStartGameA = false → ∀ p ∈ cexL5.players,
        ∀ q ∈ (stepGame cexL5 a).players, q.id = p.id → p.progress ≤ q.progress)
    ∧ (∀ now : Nat, cexL5.phase = Phase.playing → cexL5.light = Light.green →
        ∀ p ∈ cexL5.players, (p.alive && p.holding && p.finishedAt.isNone) = true →
          ∀ q ∈ (stepGame cexL5 (Act.tick now)).players, q.id = p.id →
            q.progress = min cexL5.progressToWin
              (p.progress + (getCurrentDifficulty cexL5).progressRate))) :=
  ⟨Reachable.step _ (Reachable.step _ (Reachable.step _ (Reachable.step _
     (Reachable.step _ (Reachable.step _ Reachable.init))))),
   progress_spec cexL5
     (Reachable.step _ (Reachable.step _ (Reachable.step _ (Reachable.step _
       (Reachable.step _ (Reachable.step _ Reachable.init))))))⟩

/-! ### C3: leaderboard size -/

/-- C3 counterexample: in the reachable state `cexL7` (a player eliminated
at grace expiry is kicked after the round ends), the leaderboard still
carries the kicked player's elimination entry: it has 2 entries while the
registry holds 1 player, so "exactly N entries / every registered player
exactly once" fails on a reachable state. -/
theorem leaderboard_claim_cex :
    Reachable cexL7
    ∧ (getLeaderboard cexL7).length = 2
    ∧ cexL7.players.length = 1 := by
  refine ⟨?_, by rw [getLeaderboard_length]; decide, by decide⟩
  exact Reachable.step _ (Reachable.step _ (Reachable.step _ (Reachable.step _
    (Reachable.step _ (Reachable.step _ (Reachable.step _
      (Reachable.step _ Reachable.init)))))))

end RLGL
